import Mathlib

/-!
Shallow embedding of btpworks/chronicle (Rust) for specification checking.

Conventions used throughout:
* Rust `HashMap<K, V>` is modelled as an association list `List (K × V)`
  with distinct keys; `insert` replaces the first binding in place and
  otherwise appends.  Rust's `std::collections::HashMap` iteration order is
  unspecified (randomly seeded per process); this embedding fixes one
  admissible order, namely insertion order.  Nothing in the source sorts
  these containers.
* Rust `HashSet<V>` is modelled as a duplicate-free `List V`; `insert`
  appends when the element is absent.
* `chrono::DateTime<Utc>` is modelled as `Int` (a timestamp).  The RFC-3339
  rendering used by the JSON-LD codec is injective and round-trips exactly,
  so it is modelled as the identity on the timestamp.
* `uuid::Uuid` is modelled as its canonical (lowercase, hyphenated) string.
* A Rust panic (`unreachable!()` or `unwrap()` failure) is modelled by
  returning `none`.
-/

/-- Association-list lookup (first binding wins), mirroring `HashMap::get`. -/
def alLookup {β : Type} : List (String × β) → String → Option β
  | [], _ => none
  | (k₀, v₀) :: rest, k => if k₀ = k then some v₀ else alLookup rest k

/-- Association-list membership, mirroring `HashMap::contains_key`. -/
def alContains {β : Type} (l : List (String × β)) (k : String) : Bool :=
  (alLookup l k).isSome

/-- Association-list insert: replace the first binding in place, else append.
Mirrors `HashMap::insert` under the insertion-order convention. -/
def alInsert {β : Type} : List (String × β) → String → β → List (String × β)
  | [], k, v => [(k, v)]
  | (k₀, v₀) :: rest, k, v =>
    if k₀ = k then (k₀, v) :: rest else (k₀, v₀) :: alInsert rest k v

/-- Update the first binding for `k` in place, mirroring
`HashMap::get_mut(..).map(..)` (no effect when the key is absent). -/
def alUpdate {β : Type} : List (String × β) → String → (β → β) → List (String × β)
  | [], _, _ => []
  | (k₀, v₀) :: rest, k, f =>
    if k₀ = k then (k₀, f v₀) :: rest else (k₀, v₀) :: alUpdate rest k f

/-- Remove the first binding for `k`, returning its value and the remainder;
mirrors `HashMap::remove`. -/
def alRemove {β : Type} : List (String × β) → String → Option (β × List (String × β))
  | [], _ => none
  | (k₀, v₀) :: rest, k =>
    if k₀ = k then some (v₀, rest) else
      match alRemove rest k with
      | some (v, rest₂) => some (v, (k₀, v₀) :: rest₂)
      | none => none

/-- Set insert, mirroring `HashSet::insert`: append when absent. -/
def setInsert (s : List String) (v : String) : List String :=
  if v ∈ s then s else s ++ [v]

/-- Keys of an association list. -/
def alKeys {β : Type} (l : List (String × β)) : List String := l.map (·.1)

/-! ## Identifier codec (`common/src/models.rs`)

Identifiers are IRIs of shape `chronicle:<kind>:<name>[:<uuid>]`, stored as
plain strings (the newtypes `NamespaceId`, `AgentId`, `ActivityId`,
`EntityId` all wrap `String`).  `decompose` splits on `:` and panics
(`unreachable!()`) when too few segments are present. -/

/-- Structurally recursive split on a separator character (written so that
it reduces inside the kernel). -/
def splitCharsAux (sep : Char) : List Char → List Char → List (List Char)
  | [], acc => [acc.reverse]
  | c :: cs, acc =>
    if c = sep then acc.reverse :: splitCharsAux sep cs []
    else splitCharsAux sep cs (c :: acc)

/-- Split an identifier IRI on colons, mirroring `self.0.split(':')`. -/
def splitColon (s : String) : List String :=
  (splitCharsAux ':' s.data []).map String.mk

/-- Hexadecimal digit test used by the UUID parser model. -/
def isHexDigit (c : Char) : Bool :=
  c.isDigit || (97 ≤ c.toNat && c.toNat ≤ 102) || (65 ≤ c.toNat && c.toNat ≤ 70)

/-- Check a 36-character hyphenated UUID shape (8-4-4-4-12). -/
def isHyphenatedUuid (l : List Char) : Bool :=
  l.length = 36 &&
    (List.range 36).all fun i =>
      if i = 8 ∨ i = 13 ∨ i = 18 ∨ i = 23 then l.getD i ' ' = '-'
      else isHexDigit (l.getD i ' ')

/-- Insert the canonical hyphens into a 32-digit UUID. -/
def hyphenate (l : List Char) : List Char :=
  l.take 8 ++ '-' :: (l.drop 8).take 4 ++ '-' :: (l.drop 12).take 4 ++
    '-' :: (l.drop 16).take 4 ++ '-' :: l.drop 20

/-- Model of `uuid::Uuid::parse_str`, canonicalising to lowercase hyphenated
form.  (The braced and URN input forms accepted by the `uuid` crate are
omitted; no claim depends on them.) -/
def parseUuid (s : String) : Option String :=
  let l := s.data.map Char.toLower
  if isHyphenatedUuid l then some (String.mk l)
  else if l.length = 32 && l.all isHexDigit then some (String.mk (hyphenate l))
  else none

/-- Model of `NamespaceId::decompose`: name and parsed UUID from segments 2
and 3.  `none` models the `unreachable!()` panic / `Uuid::parse_str
(..).unwrap()` panic on malformed input. -/
def nsDecompose (s : String) : Option (String × String) :=
  match splitColon s with
  | _ :: _ :: name :: uuid :: _ =>
    match parseUuid uuid with
    | some u => some (name, u)
    | none => none
  | _ => none

/-- Model of `AgentId::decompose` / `ActivityId::decompose` /
`EntityId::decompose`: the name is segment 2; `none` models the
`unreachable!()` panic. -/
def namePartOf (s : String) : Option String :=
  match splitColon s with
  | _ :: _ :: name :: _ => some name
  | _ => none

/-! ## Data model (`common/src/models.rs`) -/

/-- Namespace resource (`struct Namespace`). -/
structure Namespace where
  id : String
  uuid : String
  name : String
deriving Repr, DecidableEq

/-- Agent resource (`struct Agent`). -/
structure Agent where
  id : String
  namespaceid : String
  name : String
  publickey : Option String
deriving Repr, DecidableEq

/-- Activity resource (`struct Activity`). -/
structure Activity where
  id : String
  namespaceid : String
  name : String
  started : Option Int
  ended : Option Int
deriving Repr, DecidableEq

/-- Entity resource (`enum Entity`), unsigned or signed. -/
inductive Entity where
  | unsigned (id : String) (namespaceid : String) (name : String)
  | signed (id : String) (namespaceid : String) (name : String)
      (signature : String) (locator : Option String) (signatureTime : Int)
deriving Repr, DecidableEq

/-- Model of `Entity::name`. -/
def Entity.name : Entity → String
  | .unsigned _ _ n => n
  | .signed _ _ n _ _ _ => n

/-- Model of `Entity::namespaceid`. -/
def Entity.namespaceid : Entity → String
  | .unsigned _ ns _ => ns
  | .signed _ ns _ _ _ _ => ns

/-- Model of `Entity::id`. -/
def Entity.id : Entity → String
  | .unsigned i _ _ => i
  | .signed i _ _ _ _ _ => i

/-- Model of `Entity::sign`: promote to `Signed`, replacing the signature
fields and keeping id, namespace and name. -/
def Entity.sign (e : Entity) (signature : String) (locator : Option String)
    (signatureTime : Int) : Entity :=
  match e with
  | .unsigned i ns n => .signed i ns n signature locator signatureTime
  | .signed i ns n _ _ _ => .signed i ns n signature locator signatureTime

/-- Operation taxonomy (`enum ChronicleTransaction`), nine variants.  Field
names follow the source structs; `ns` stands for the source field
`namespace`, which is a reserved word here. -/
inductive ChronicleTransaction where
  | createNamespace (id : String) (name : String) (uuid : String)
  | createAgent (ns : String) (name : String) (id : String)
  | registerKey (ns : String) (id : String) (publickey : String) (name : String)
  | createActivity (ns : String) (id : String) (name : String)
  | startActivity (ns : String) (id : String) (agent : String) (time : Int)
  | endActivity (ns : String) (id : String) (agent : String) (time : Int)
  | activityUses (ns : String) (id : String) (activity : String)
  | generateEntity (ns : String) (id : String) (activity : String)
  | entityAttach (ns : String) (id : String) (agent : String)
      (signature : String) (locator : Option String) (signatureTime : Int)
deriving Repr, DecidableEq

/-- The provenance graph (`struct ProvModel`): resource maps and the three
relation maps populated by `apply` (plus `was_attributed_to`, declared in the
source but never written). -/
structure ProvModel where
  namespaces : List (String × Namespace) := []
  agents : List (String × Agent) := []
  activities : List (String × Activity) := []
  entities : List (String × Entity) := []
  wasAssociatedWith : List (String × List String) := []
  wasAttributedTo : List (String × List String) := []
  wasGeneratedBy : List (String × List String) := []
  usedRel : List (String × List String) := []
deriving Repr, DecidableEq

/-- Relation-map insert: `entry(k).or_insert(HashSet::new()).insert(v)`. -/
def relInsert (rel : List (String × List String)) (k v : String) :
    List (String × List String) :=
  alInsert rel k (setInsert ((alLookup rel k).getD []) v)

/-- Model of `ProvModel::namespace_context`: decompose the namespace id and
(re)insert the namespace resource; `none` models the decompose panic. -/
def ProvModel.namespaceContext (m : ProvModel) (ns : String) : Option ProvModel :=
  match nsDecompose ns with
  | some (nsname, uuid) =>
    some { m with namespaces := alInsert m.namespaces ns ⟨ns, uuid, nsname⟩ }
  | none => none

/-- Model of `ProvModel::apply`, one branch per operation variant,
translated clause by clause from `common/src/models.rs` lines 460-635.
The result is `none` exactly when the source panics (identifier decompose
or UUID parse failure). -/
def ProvModel.apply (m : ProvModel) (tx : ChronicleTransaction) : Option ProvModel :=
  match tx with
  | .createNamespace id name uuid =>
    some { m with namespaces := alInsert m.namespaces id ⟨id, uuid, name⟩ }
  | .createAgent ns name id => do
    let m ← m.namespaceContext ns
    pure { m with agents := alInsert m.agents id ⟨id, ns, name, none⟩ }
  | .registerKey ns id publickey name => do
    let m ← m.namespaceContext ns
    let m := if alContains m.agents id then m
      else { m with agents := alInsert m.agents id ⟨id, ns, name, none⟩ }
    pure { m with agents := alUpdate m.agents id fun a => { a with publickey := some publickey } }
  | .createActivity ns id name => do
    let m ← m.namespaceContext ns
    if alContains m.activities id then pure m
    else pure { m with activities := alInsert m.activities id ⟨id, ns, name, none, none⟩ }
  | .startActivity ns id agent time => do
    let m ← m.namespaceContext ns
    let m ←
      if alContains m.activities id then pure m
      else do
        let aname ← namePartOf id
        pure { m with activities := alInsert m.activities id ⟨id, ns, aname, some time, none⟩ }
    let m ←
      if alContains m.agents agent then pure m
      else do
        let gname ← namePartOf agent
        pure { m with agents := alInsert m.agents agent ⟨agent, ns, gname, none⟩ }
    pure { m with wasAssociatedWith := relInsert m.wasAssociatedWith id agent }
  | .endActivity ns id agent time => do
    let m ← m.namespaceContext ns
    let m ←
      if alContains m.activities id then pure m
      else do
        let aname ← namePartOf id
        pure { m with activities := alInsert m.activities id ⟨id, ns, aname, none, some time⟩ }
    let m ←
      if alContains m.agents agent then pure m
      else do
        let gname ← namePartOf agent
        pure { m with agents := alInsert m.agents agent ⟨agent, ns, gname, none⟩ }
    pure { m with wasAssociatedWith := relInsert m.wasAssociatedWith id agent }
  | .activityUses ns id activity => do
    let m ← m.namespaceContext ns
    let m ←
      if alContains m.activities activity then pure m
      else do
        let aname ← namePartOf activity
        pure { m with activities := alInsert m.activities activity ⟨activity, ns, aname, none, none⟩ }
    let m ←
      if alContains m.entities id then pure m
      else do
        let ename ← namePartOf id
        pure { m with entities := alInsert m.entities id (.unsigned id ns ename) }
    pure { m with usedRel := relInsert m.usedRel activity id }
  | .generateEntity ns id activity => do
    let m ← m.namespaceContext ns
    let m ←
      if alContains m.activities activity then pure m
      else do
        let aname ← namePartOf activity
        pure { m with activities := alInsert m.activities activity ⟨activity, ns, aname, none, none⟩ }
    let m ←
      if alContains m.entities id then pure m
      else do
        let ename ← namePartOf id
        pure { m with entities := alInsert m.entities id (.unsigned id ns ename) }
    pure { m with wasGeneratedBy := relInsert m.wasGeneratedBy id activity }
  | .entityAttach ns id agent signature locator signatureTime => do
    let m ← m.namespaceContext ns
    let m ←
      if alContains m.entities id then pure m
      else do
        let ename ← namePartOf id
        pure { m with entities := alInsert m.entities id (.unsigned id ns ename) }
    let m ←
      if alContains m.agents agent then pure m
      else do
        let gname ← namePartOf agent
        pure { m with agents := alInsert m.agents agent ⟨agent, ns, gname, none⟩ }
    match alRemove m.entities id with
    | none => none
    | some (unsigned, rest) =>
      pure { m with entities := alInsert rest id (unsigned.sign signature locator signatureTime) }

/-- Model of `ProvModel::from_tx`: fold `apply` over the operation list
starting from the default (empty) model. -/
def ProvModel.fromTx (txs : List ChronicleTransaction) : Option ProvModel :=
  txs.foldlM ProvModel.apply {}

/-! ## Linked-data codec (`ProvModel::to_json`, `ProvModel::apply_json_ld`)

An expanded JSON-LD document is modelled as a list of nodes, each an `@id`,
one `@type`, and a keyed property list in emission order.  A property value
is either an array of `@value` / `@id` objects or a raw scalar (the entity
signature properties are emitted raw by `to_json`).  Timestamp values model
the RFC-3339 string of the instant (an injective encoding, kept abstract as
the timestamp itself). -/

/-- One member of a JSON-LD property array: a literal string, a literal
timestamp, or an `@id` reference. -/
inductive LdValue where
  | vstr (s : String)
  | vtime (t : Int)
  | vid (s : String)
deriving Repr, DecidableEq

/-- A JSON-LD property value: an array of objects, or a raw scalar. -/
inductive LdProp where
  | arr (vs : List LdValue)
  | one (v : LdValue)
deriving Repr, DecidableEq

/-- A node of an expanded JSON-LD document. -/
structure LdNode where
  id : String
  typ : String
  props : List (String × LdProp)
deriving Repr, DecidableEq

/-! Vocabulary IRIs.  `common/src/vocab.rs` is not part of the sources at
hand; the constants are modelled from the spec as fixed, pairwise distinct
IRIs (the rdfs / prov literals below appear verbatim in `to_json`). -/

/-- Type IRI `Chronicle::NamespaceType`. -/
def chronicleNamespaceType : String := "http://blockchaintp.com/chronicle/ns#namespace"

/-- Type IRI `Prov::Agent`. -/
def provAgentType : String := "http://www.w3.org/ns/prov#Agent"

/-- Type IRI `Prov::Activity`. -/
def provActivityType : String := "http://www.w3.org/ns/prov#Activity"

/-- Type IRI `Prov::Entity`. -/
def provEntityType : String := "http://www.w3.org/ns/prov#Entity"

/-- Property IRI for rdfs label (literal in `to_json`). -/
def rdfsLabel : String := "http://www.w3.org/2000/01/rdf-schema#label"

/-- Property IRI `Chronicle::HasPublicKey`. -/
def chronicleHasPublicKey : String := "http://blockchaintp.com/chronicle/ns#hasPublicKey"

/-- Property IRI `Chronicle::HasNamespace`. -/
def chronicleHasNamespace : String := "http://blockchaintp.com/chronicle/ns#hasNamespace"

/-- Property IRI `Prov::StartedAtTime` (literal in `to_json`). -/
def provStartedAtTime : String := "http://www.w3.org/ns/prov#startedAtTime"

/-- Property IRI `Prov::EndedAtTime` (literal in `to_json`). -/
def provEndedAtTime : String := "http://www.w3.org/ns/prov#endedAtTime"

/-- Property IRI `Prov::WasAssociatedWith`. -/
def provWasAssociatedWith : String := "http://www.w3.org/ns/prov#wasAssociatedWith"

/-- Property IRI `Prov::Used`. -/
def provUsed : String := "http://www.w3.org/ns/prov#used"

/-- Property IRI `Prov::WasGeneratedBy`. -/
def provWasGeneratedBy : String := "http://www.w3.org/ns/prov#wasGeneratedBy"

/-- Property IRI `Chronicle::Signature`. -/
def chronicleSignature : String := "http://blockchaintp.com/chronicle/ns#signature"

/-- Property IRI `Chronicle::SignedAtTime`. -/
def chronicleSignedAtTime : String := "http://blockchaintp.com/chronicle/ns#signedAtTime"

/-- Property IRI `Chronicle::Locator`. -/
def chronicleLocator : String := "http://blockchaintp.com/chronicle/ns#locator"

/-- An optional property segment, mirroring the `option.map(|x| doc.insert
(key, ..))` pattern of `to_json`: one keyed property when present, nothing
when absent. -/
def optSeg {γ : Type} (o : Option γ) (kk : String) (f : γ → LdProp) :
    List (String × LdProp) :=
  match o with
  | some t => [(kk, f t)]
  | none => []

/-- Namespace node emitted by `to_json`: `@id`, namespace type, label. -/
def nsNode (kv : String × Namespace) : LdNode :=
  ⟨kv.1, chronicleNamespaceType, [(rdfsLabel, .arr [.vstr kv.2.name])]⟩

/-- Agent node emitted by `to_json`: label, optional public key, then the
namespace reference, in the source's insertion order. -/
def agentNode (kv : String × Agent) : LdNode :=
  ⟨kv.1, provAgentType,
    [(rdfsLabel, .arr [.vstr kv.2.name])] ++
    optSeg kv.2.publickey chronicleHasPublicKey (fun pk => .arr [.vstr pk]) ++
    [(chronicleHasNamespace, .arr [.vid kv.2.namespaceid])]⟩

/-- Activity node emitted by `to_json`: label, optional start and end
times, association and used edges when present in the relation maps, then
the namespace reference. -/
def activityNode (m : ProvModel) (kv : String × Activity) : LdNode :=
  ⟨kv.1, provActivityType,
    [(rdfsLabel, .arr [.vstr kv.2.name])] ++
    optSeg kv.2.started provStartedAtTime (fun t => .arr [.vtime t]) ++
    optSeg kv.2.ended provEndedAtTime (fun t => .arr [.vtime t]) ++
    optSeg (alLookup m.wasAssociatedWith kv.1) provWasAssociatedWith
      (fun agents => .arr (agents.map LdValue.vid)) ++
    optSeg (alLookup m.usedRel kv.1) provUsed
      (fun entities => .arr (entities.map LdValue.vid)) ++
    [(chronicleHasNamespace, .arr [.vid kv.2.namespaceid])]⟩

/-- Entity node emitted by `to_json`: label, generation edges when present,
the signature fields (raw scalars) for a signed entity, then the namespace
reference. -/
def entityNode (m : ProvModel) (kv : String × Entity) : LdNode :=
  ⟨kv.1, provEntityType,
    [(rdfsLabel, .arr [.vstr kv.2.name])] ++
    optSeg (alLookup m.wasGeneratedBy kv.1) provWasGeneratedBy
      (fun activities => .arr (activities.map LdValue.vid)) ++
    (match kv.2 with
     | .signed _ _ _ sig loc t =>
       [(chronicleSignature, .one (.vstr sig)), (chronicleSignedAtTime, .one (.vtime t))] ++
       optSeg loc chronicleLocator (fun l => .one (.vstr l))
     | .unsigned _ _ _ => []) ++
    [(chronicleHasNamespace, .arr [.vid kv.2.namespaceid])]⟩

/-- Model of `ProvModel::to_json` (lines 638-811): namespaces, agents,
activities and entities in container iteration order. -/
def ProvModel.toJson (m : ProvModel) : List LdNode :=
  m.namespaces.map nsNode ++ m.agents.map agentNode ++
    m.activities.map (activityNode m) ++ m.entities.map (entityNode m)

/-- All `@id` references of a property. -/
def propIds : LdProp → List String
  | .arr vs => vs.filterMap fun v => match v with | .vid i => some i | _ => none
  | .one v => match v with | .vid i => [i] | _ => []

/-- First literal string of a property. -/
def propStr : LdProp → Option String
  | .arr (LdValue.vstr s :: _) => some s
  | .one (.vstr s) => some s
  | _ => none

/-- First literal timestamp of a property. -/
def propTime : LdProp → Option Int
  | .arr (LdValue.vtime t :: _) => some t
  | .one (.vtime t) => some t
  | _ => none

/-- Reference ids of the named property (empty when absent), mirroring
`extract_reference_ids`. -/
def nodeRefIds (n : LdNode) (k : String) : List String :=
  match alLookup n.props k with
  | some p => propIds p
  | none => []

/-- Namespace-node applier, mirroring `apply_node_as_namespace`
(`from_json_ld.rs` lines 145-153): `namespace_context` on the node id. -/
def applyNodeAsNamespace (m : ProvModel) (n : LdNode) : Option ProvModel :=
  m.namespaceContext n.id

/-- Agent-node applier.  Modelled from the spec: the applier matching this
version of the model is absent from the sources (the shipped
`apply_node_as_agent` targets the later identity-bearing model); per §3.2
and §4.2 it recovers the agent's name from the label, its optional public
key and its namespace reference, following the shipped applier's structure
(extract id and namespace, `namespace_context`, then `add_agent`). -/
def applyNodeAsAgent (m : ProvModel) (n : LdNode) : Option ProvModel := do
  let name ← (alLookup n.props rdfsLabel).bind propStr
  let ns ← (nodeRefIds n chronicleHasNamespace).head?
  let m ← m.namespaceContext ns
  let publickey := (alLookup n.props chronicleHasPublicKey).bind propStr
  pure { m with agents := alInsert m.agents n.id ⟨n.id, ns, name, publickey⟩ }

/-- Activity-node applier.  Modelled from the spec, following the shipped
`apply_node_as_activity` structure: label, optional start and end times,
`used` and `wasAssociatedWith` reference ids folded into the relation maps,
then `add_activity`. -/
def applyNodeAsActivity (m : ProvModel) (n : LdNode) : Option ProvModel := do
  let name ← (alLookup n.props rdfsLabel).bind propStr
  let ns ← (nodeRefIds n chronicleHasNamespace).head?
  let m ← m.namespaceContext ns
  let started := (alLookup n.props provStartedAtTime).bind propTime
  let ended := (alLookup n.props provEndedAtTime).bind propTime
  let usedRel := (nodeRefIds n provUsed).foldl (fun r e => relInsert r n.id e) m.usedRel
  let m := { m with usedRel := usedRel }
  let waw := (nodeRefIds n provWasAssociatedWith).foldl
    (fun r a => relInsert r n.id a) m.wasAssociatedWith
  let m := { m with wasAssociatedWith := waw }
  pure { m with activities := alInsert m.activities n.id ⟨n.id, ns, name, started, ended⟩ }

/-- Entity-node applier.  Modelled from the spec, following the shipped
`apply_node_as_entity` structure: label, namespace, `wasGeneratedBy`
reference ids folded into the relation map, then `add_entity` with the
signed form when the signature property is present. -/
def applyNodeAsEntity (m : ProvModel) (n : LdNode) : Option ProvModel := do
  let name ← (alLookup n.props rdfsLabel).bind propStr
  let ns ← (nodeRefIds n chronicleHasNamespace).head?
  let m ← m.namespaceContext ns
  let wgb := (nodeRefIds n provWasGeneratedBy).foldl
    (fun r a => relInsert r n.id a) m.wasGeneratedBy
  let m := { m with wasGeneratedBy := wgb }
  match alLookup n.props chronicleSignature with
  | some sigProp => do
    let sig ← propStr sigProp
    let t ← (alLookup n.props chronicleSignedAtTime).bind propTime
    let locator := (alLookup n.props chronicleLocator).bind propStr
    pure { m with entities := alInsert m.entities n.id (.signed n.id ns name sig locator t) }
  | none =>
    pure { m with entities := alInsert m.entities n.id (.unsigned n.id ns name) }

/-- Per-node dispatch of `ProvModel::apply_json_ld` (`from_json_ld.rs`
lines 86-105): an independent namespace check, then the
agent / activity / entity chain.  (The identity and attachment branches
belong to the later model and are never produced by this serialiser.) -/
def applyNode (m : ProvModel) (n : LdNode) : Option ProvModel := do
  let m ← if n.typ = chronicleNamespaceType then applyNodeAsNamespace m n else pure m
  if n.typ = provAgentType then applyNodeAsAgent m n
  else if n.typ = provActivityType then applyNodeAsActivity m n
  else if n.typ = provEntityType then applyNodeAsEntity m n
  else pure m

/-- Model of `ProvModel::apply_json_ld` (lines 75-108): fold the node
appliers over the expanded document. -/
def ProvModel.applyJsonLd (m : ProvModel) (doc : List LdNode) : Option ProvModel :=
  doc.foldlM applyNode m

/-! ## Transport framing (`common/src/protocol.rs`, `sawtooth-tp/src/tp.rs`) -/

/-- The transaction envelope (`submission::Submission`): protocol version,
span id, and the operation bodies as linked-data JSON texts. -/
structure Submission where
  version : String
  spanId : String
  body : List String
deriving Repr, DecidableEq

/-- Length-prefixed string encoding used by the envelope codec model. -/
def encStr (s : String) : List Nat := s.length :: s.data.map Char.toNat

/-- Decode one length-prefixed string, returning it and the remaining
bytes. -/
def decStr : List Nat → Option (String × List Nat)
  | [] => none
  | n :: rest =>
    if n ≤ rest.length then
      some (String.mk ((rest.take n).map Char.ofNat), rest.drop n)
    else none

/-- Decode `n` length-prefixed strings. -/
def decStrs : Nat → List Nat → Option (List String × List Nat)
  | 0, rest => some ([], rest)
  | n + 1, rest => do
    let (s, rest) ← decStr rest
    let (ss, rest) ← decStrs n rest
    pure (s :: ss, rest)

/-- Modelled from the spec: the prost-generated message codec
(`protos/submission.proto`, compiled into `OUT_DIR`) is absent from the
sources; per §4.5 the envelope is length-delimited binary carrying the
three fields in order.  `serialize_submission` writes the version, the
span id, then the count-prefixed bodies. -/
def serializeSubmission (s : Submission) : List Nat :=
  encStr s.version ++ encStr s.spanId ++ s.body.length :: (s.body.map encStr).flatten

/-- Model of `deserialize_submission` (`protocol.rs` lines 37-39): decode
the three fields; no field is validated — in particular the protocol
version is not inspected. -/
def deserializeSubmission (buf : List Nat) : Option Submission := do
  let (version, rest) ← decStr buf
  let (spanId, rest) ← decStr rest
  match rest with
  | [] => none
  | n :: rest => do
    let (body, rest) ← decStrs n rest
    if rest.isEmpty then pure ⟨version, spanId, body⟩ else none

/-- Model of `create_operation_submission_request` (`protocol.rs` lines
14-28): version `"1"`, empty span id, the operations' JSON texts as the
body. -/
def createOperationSubmissionRequest (payload : List String) : Submission :=
  ⟨"1", "", payload⟩

/-- Model of the envelope handling in `ChronicleTransactionHandler::apply`
(`tp.rs` lines 62-69): the decoded version and span id are bound to
discarded variables (`let _protocol_version = submission.version;`) and the
body is passed on for execution; no version comparison occurs. -/
def tpSubmissionBody (s : Submission) : List String := s.body

/-! ## Query projection store (`api/src/persistence/mod.rs`)

The SQLite tables touched by the claims, with surrogate integer rowids.
SQLite assigns a fresh rowid of `max(rowid) + 1`. -/

/-- A `namespace` table row. -/
structure NamespaceRow where
  id : Nat
  name : String
  uuid : String
deriving Repr, DecidableEq

/-- An `activity` table row. -/
structure ActivityRow where
  id : Nat
  nsid : Nat
  name : String
  started : Option Int
  ended : Option Int
deriving Repr, DecidableEq

/-- The projection slice used by the activity claims. -/
structure ProjDb where
  nsRows : List NamespaceRow
  actRows : List ActivityRow
deriving Repr, DecidableEq

/-- The `max(dsl::id)` aggregate over the activity table with
`unwrap_or_default`: `0` on an empty table. -/
def maxActivityRowid (db : ProjDb) : Nat :=
  db.actRows.foldl (fun a r => max a r.id) 0

/-- Model of `Store::namespace_by_name` restricted to the row lookup: the
first `namespace` row with the given name. -/
def namespaceRowByName (db : ProjDb) (nsname : String) : Option NamespaceRow :=
  db.nsRows.find? fun n => n.name == nsname

/-- Model of `Store::disambiguate_activity_name` (lines 674-702): count the
activity rows with this name in the namespace (joined through the
namespace table); when none collide use the name as given, otherwise
append `-` and the maximum rowid of the whole activity table. -/
def disambiguateActivityName (db : ProjDb) (name : String) (namespaceid : String) :
    Option String := do
  let (nsname, _) ← nsDecompose namespaceid
  let collision := (db.actRows.filter fun r =>
    r.name == name && (db.nsRows.any fun n => n.id == r.nsid && n.name == nsname)).length
  if collision = 0 then pure name
  else pure (name ++ "-" ++ toString (maxActivityRowid db))

/-- Model of the projection write of `Store::apply_activity` (lines
128-164): insert the row, or update the times on a `(name, namespace_id)`
conflict; a fresh row receives rowid `max(rowid) + 1`. -/
def applyActivityRow (db : ProjDb) (name : String) (nsid : Nat)
    (started ended : Option Int) : ProjDb :=
  if db.actRows.any fun r => r.name == name && r.nsid == nsid then
    { db with actRows := db.actRows.map fun r =>
        if r.name == name && r.nsid == nsid then
          { r with started := started, ended := ended }
        else r }
  else
    { db with actRows := db.actRows ++ [⟨maxActivityRowid db + 1, nsid, name, started, ended⟩] }

/-- Model of the `CreateActivity` command path against the projection
(`api/src/lib.rs` `create_activity`): disambiguate the requested name, then
write the activity row. -/
def createActivityCommand (db : ProjDb) (name : String) (namespaceid : String) :
    Option ProjDb := do
  let dname ← disambiguateActivityName db name namespaceid
  let (nsname, _) ← nsDecompose namespaceid
  let nsrow ← namespaceRowByName db nsname
  pure (applyActivityRow db dname nsrow.id none none)

/-- Iterate the `CreateActivity` command `n` times with the same requested
name. -/
def iterateCreateActivity (db : ProjDb) (name : String) (namespaceid : String) :
    Nat → Option ProjDb
  | 0 => some db
  | n + 1 => do
    let db ← createActivityCommand db name namespaceid
    iterateCreateActivity db name namespaceid n

/-- SQLite ascending comparison on the nullable `started` column: `NULL`
sorts before every value. -/
def startedLe (a b : Option Int) : Bool :=
  match a, b with
  | none, _ => true
  | some _, none => false
  | some x, some y => x ≤ y

/-- Stable insertion into a list sorted by `started` ascending. -/
def insertByStarted (r : ActivityRow) : List ActivityRow → List ActivityRow
  | [] => [r]
  | x :: xs =>
    if startedLe x.started r.started then x :: insertByStarted r xs else r :: x :: xs

/-- Stable sort modelling `ORDER BY started` (ascending, diesel default). -/
def sortByStarted : List ActivityRow → List ActivityRow
  | [] => []
  | x :: xs => insertByStarted x (sortByStarted xs)

/-- Model of `Store::activity_by_activity_name_and_namespace` (lines
98-111): first activity row with the given name in the namespace. -/
def activityByNameAndNamespace (db : ProjDb) (name : String) (namespaceid : String) :
    Option ActivityRow := do
  let (nsname, _) ← nsDecompose namespaceid
  let nsrow ← namespaceRowByName db nsname
  (db.actRows.filter fun r => r.name == name && r.nsid == nsrow.id).head?

/-- Model of `Store::get_activity_by_name_or_last_started` (lines 788-806):
with a name, look it up in the namespace; without one, take the first row
of the activity table ordered by `started` ascending — the namespace is
not consulted in that branch. -/
def getActivityByNameOrLastStarted (db : ProjDb) (name : Option String)
    (namespaceid : String) : Option ActivityRow :=
  match name with
  | some n => activityByNameAndNamespace db n namespaceid
  | none => (sortByStarted db.actRows).head?

/-! ## Attachment replay (`Store::apply_attachment`, lines 196-240)

These rows belong to the later prov model (`Attachment` with a signing
`IdentityId`); the struct shapes follow their uses in
`from_json_ld.rs` and `persistence/mod.rs`. -/

/-- An `agent` table row (`identityId` is the `identity_id` column the
agent-identity join runs through). -/
structure AgentRow where
  id : Nat
  nsid : Nat
  name : String
  current : Nat
  identityId : Option Nat
deriving Repr, DecidableEq

/-- An `identity` table row. -/
structure IdentityRow where
  id : Nat
  nsid : Nat
  publicKey : String
deriving Repr, DecidableEq

/-- An `attachment` table row. -/
structure AttachmentRow where
  id : Nat
  nsid : Nat
  signature : String
  signerId : Nat
  locator : Option String
  signatureTime : Int
deriving Repr, DecidableEq

/-- The projection slice used by the attachment claim. -/
structure AttachStoreDb where
  nsRows : List NamespaceRow
  agentRows : List AgentRow
  identityRows : List IdentityRow
  attachmentRows : List AttachmentRow
deriving Repr, DecidableEq

/-- The model-side `Attachment` resource (fields as destructured in
`apply_attachment` and built in `apply_node_as_attachment`). -/
structure Attachment where
  id : String
  namespaceid : String
  signature : String
  signer : String
  locator : Option String
  signatureTime : Int
deriving Repr, DecidableEq

/-- Model of `IdentityId::decompose`: owning agent name and public key from
segments 2 and 3. -/
def identityDecompose (s : String) : Option (String × String) :=
  match splitColon s with
  | _ :: _ :: name :: key :: _ => some (name, key)
  | _ => none

/-- The `max(rowid)` aggregate over the attachment table. -/
def maxAttachmentRowid (db : AttachStoreDb) : Nat :=
  db.attachmentRows.foldl (fun a r => max a r.id) 0

/-- Model of `Store::apply_attachment` (lines 196-240).  The wall clock is
passed in as `now`.  Steps: check the namespace against the model's map,
resolve the namespace row, decompose the signer identity, resolve the
signer through the agent-identity join, then insert the attachment row —
whose `signature_time` column the source fills with `Utc::now()`, not with
the attachment's own `signature_time` (which is destructured but unused). -/
def applyAttachment (db : AttachStoreDb) (att : Attachment)
    (ns : List (String × Namespace)) (now : Int) : Option AttachStoreDb := do
  let _ ← alLookup ns att.namespaceid
  let (nsname, _) ← nsDecompose att.namespaceid
  let nsrow ← db.nsRows.find? fun n => n.name == nsname
  let (agentName, publicKey) ← identityDecompose att.signer
  let joinedIds := db.agentRows.foldr (fun a acc =>
    (((db.identityRows.filter fun i => a.identityId == some i.id).filter fun i =>
      a.name == agentName && a.nsid == nsrow.id && i.publicKey == publicKey).map (·.id))
      ++ acc) []
  let signerId ← joinedIds.head?
  pure { db with attachmentRows := db.attachmentRows ++
    [⟨maxAttachmentRowid db + 1, nsrow.id, att.signature, signerId, att.locator, now⟩] }

/-! ## Association-list lemmas -/

theorem alLookup_alInsert_self {β : Type} (l : List (String × β)) (k : String) (v : β) :
    alLookup (alInsert l k v) k = some v := by
  induction l with
  | nil => simp [alInsert, alLookup]
  | cons hd tl ih =>
    obtain ⟨k₀, v₀⟩ := hd
    by_cases h : k₀ = k
    · simp [alInsert, alLookup, h]
    · simp [alInsert, alLookup, h, ih]

theorem alInsert_alInsert {β : Type} (l : List (String × β)) (k : String) (v : β) :
    alInsert (alInsert l k v) k v = alInsert l k v := by
  induction l with
  | nil => simp [alInsert]
  | cons hd tl ih =>
    obtain ⟨k₀, v₀⟩ := hd
    by_cases h : k₀ = k
    · simp [alInsert, h]
    · simp [alInsert, h, ih]

theorem alInsert_eq_of_lookup {β : Type} {l : List (String × β)} {k : String} {v : β}
    (h : alLookup l k = some v) : alInsert l k v = l := by
  induction l with
  | nil => simp [alLookup] at h
  | cons hd tl ih =>
    obtain ⟨k₀, v₀⟩ := hd
    by_cases hk : k₀ = k
    · simp [alLookup, hk] at h
      simp [alInsert, hk, h]
    · simp [alLookup, hk] at h
      simp [alInsert, hk, ih h]

theorem alContains_alInsert_self {β : Type} (l : List (String × β)) (k : String) (v : β) :
    alContains (alInsert l k v) k = true := by
  simp [alContains, alLookup_alInsert_self]

theorem alContains_of_lookup {β : Type} {l : List (String × β)} {k : String} {v : β}
    (h : alLookup l k = some v) : alContains l k = true := by
  simp [alContains, h]

theorem alLookup_of_contains {β : Type} {l : List (String × β)} {k : String}
    (h : alContains l k = true) : ∃ v, alLookup l k = some v := by
  simpa [alContains, Option.isSome_iff_exists] using h

theorem alUpdate_alUpdate {β : Type} (l : List (String × β)) (k : String) (f : β → β)
    (hf : ∀ b, f (f b) = f b) : alUpdate (alUpdate l k f) k f = alUpdate l k f := by
  induction l with
  | nil => simp [alUpdate]
  | cons hd tl ih =>
    obtain ⟨k₀, v₀⟩ := hd
    by_cases h : k₀ = k
    · simp [alUpdate, h, hf]
    · simp [alUpdate, h, ih]

theorem alContains_alUpdate {β : Type} (l : List (String × β)) (k k₁ : String) (f : β → β) :
    alContains (alUpdate l k f) k₁ = alContains l k₁ := by
  induction l with
  | nil => simp [alUpdate]
  | cons hd tl ih =>
    obtain ⟨k₀, v₀⟩ := hd
    by_cases h : k₀ = k
    · subst h
      simp only [alUpdate, if_pos rfl, alContains, alLookup]
      split <;> simp
    · simp only [alUpdate, if_neg h, alContains, alLookup] at ih ⊢
      split <;> simp [ih]

theorem mem_setInsert_self (s : List String) (v : String) : v ∈ setInsert s v := by
  by_cases h : v ∈ s <;> simp [setInsert, h]

theorem setInsert_eq_of_mem {s : List String} {v : String} (h : v ∈ s) :
    setInsert s v = s := by simp [setInsert, h]

theorem setInsert_setInsert (s : List String) (v : String) :
    setInsert (setInsert s v) v = setInsert s v :=
  setInsert_eq_of_mem (mem_setInsert_self s v)

theorem relInsert_relInsert (r : List (String × List String)) (k v : String) :
    relInsert (relInsert r k v) k v = relInsert r k v := by
  unfold relInsert
  rw [alLookup_alInsert_self]
  simp [setInsert_setInsert, alInsert_alInsert]

theorem alLookup_append_right {β : Type} {l : List (String × β)} {k : String}
    (h : alLookup l k = none) (tail : List (String × β)) :
    alLookup (l ++ tail) k = alLookup tail k := by
  induction l with
  | nil => simp
  | cons hd tl ih =>
    obtain ⟨k₀, v₀⟩ := hd
    by_cases hk : k₀ = k
    · simp [alLookup, hk] at h
    · simp [alLookup, hk] at h ⊢
      exact ih h

theorem alInsert_append_of_lookup_none {β : Type} {l : List (String × β)} {k : String}
    (h : alLookup l k = none) (v : β) : alInsert l k v = l ++ [(k, v)] := by
  induction l with
  | nil => simp [alInsert]
  | cons hd tl ih =>
    obtain ⟨k₀, v₀⟩ := hd
    by_cases hk : k₀ = k
    · simp [alLookup, hk] at h
    · simp [alLookup, hk] at h
      simp [alInsert, hk, ih h]

theorem alRemove_of_lookup_none {β : Type} {l : List (String × β)} {k : String}
    (h : alLookup l k = none) : alRemove l k = none := by
  induction l with
  | nil => simp [alRemove]
  | cons hd tl ih =>
    obtain ⟨k₀, v₀⟩ := hd
    by_cases hk : k₀ = k
    · simp [alLookup, hk] at h
    · simp [alLookup, hk] at h
      simp [alRemove, hk, ih h]

theorem alRemove_append_singleton {β : Type} {l : List (String × β)} {k : String}
    (h : alLookup l k = none) (v : β) : alRemove (l ++ [(k, v)]) k = some (v, l) := by
  induction l with
  | nil => simp [alRemove]
  | cons hd tl ih =>
    obtain ⟨k₀, v₀⟩ := hd
    by_cases hk : k₀ = k
    · simp [alLookup, hk] at h
    · simp [alLookup, hk] at h
      simp [alRemove, hk, ih h]

theorem alRemove_isSome_of_contains {β : Type} {l : List (String × β)} {k : String}
    (h : alContains l k = true) : (alRemove l k).isSome = true := by
  induction l with
  | nil => simp [alContains, alLookup] at h
  | cons hd tl ih =>
    obtain ⟨k₀, v₀⟩ := hd
    by_cases hk : k₀ = k
    · simp [alRemove, hk]
    · simp [alContains, alLookup, hk] at h
      have := ih h
      simp [alRemove, hk]
      cases hr : alRemove tl k with
      | none => rw [hr] at this; simp at this
      | some p => simp

theorem alLookup_eq_none_of_forall_not_mem {β : Type} {l : List (String × β)} {k : String}
    (h : ∀ v : β, (k, v) ∉ l) : alLookup l k = none := by
  induction l with
  | nil => simp [alLookup]
  | cons hd tl ih =>
    obtain ⟨k₀, v₀⟩ := hd
    by_cases hk : k₀ = k
    · subst hk
      exact absurd (List.mem_cons_self _ _) (h v₀)
    · simp [alLookup, hk]
      exact ih fun v hv => h v (List.mem_cons_of_mem _ hv)

/-- After `alRemove` on a key-nodup list the removed key is gone. -/
theorem alRemove_lookup_none {β : Type} {l : List (String × β)} {k : String}
    {v : β} {rest : List (String × β)} (hnd : (l.map Prod.fst).Nodup)
    (h : alRemove l k = some (v, rest)) : alLookup rest k = none := by
  induction l generalizing rest with
  | nil => simp [alRemove] at h
  | cons hd tl ih =>
    obtain ⟨k₀, v₀⟩ := hd
    simp at hnd
    by_cases hk : k₀ = k
    · simp [alRemove, hk] at h
      subst hk
      obtain ⟨_, hrest⟩ := h
      subst hrest
      exact alLookup_eq_none_of_forall_not_mem hnd.1
    · simp [alRemove, hk] at h
      cases hr : alRemove tl k with
      | none => rw [hr] at h; simp at h
      | some p =>
        obtain ⟨pv, prest⟩ := p
        rw [hr] at h
        simp at h
        obtain ⟨hv, hrest⟩ := h
        subst hrest
        simp [alLookup, hk]
        exact ih hnd.2 (by rw [hr, hv])

theorem alLookup_none_not_mem_keys {β : Type} {l : List (String × β)} {k : String}
    (h : alLookup l k = none) : k ∉ l.map Prod.fst := by
  induction l with
  | nil => simp
  | cons hd tl ih =>
    obtain ⟨k₀, v₀⟩ := hd
    by_cases hk : k₀ = k
    · simp [alLookup, hk] at h
    · simp [alLookup, hk] at h
      simp [ih h]
      exact fun hc => hk hc.symm

theorem alInsert_map_fst {β : Type} (l : List (String × β)) (k : String) (v : β) :
    (alInsert l k v).map Prod.fst =
      if alContains l k = true then l.map Prod.fst else l.map Prod.fst ++ [k] := by
  induction l with
  | nil => simp [alInsert, alContains, alLookup]
  | cons hd tl ih =>
    obtain ⟨k₀, v₀⟩ := hd
    by_cases hk : k₀ = k
    · simp [alInsert, hk, alContains, alLookup]
    · have hc : alContains ((k₀, v₀) :: tl) k = alContains tl k := by
        simp [alContains, alLookup, hk]
      rw [hc]
      by_cases h₂ : alContains tl k = true
      · simp [alInsert, hk, h₂, ih]
      · simp [alInsert, hk, h₂, ih]

theorem alInsert_keys_nodup {β : Type} {l : List (String × β)} {k : String} {v : β}
    (h : (l.map Prod.fst).Nodup) : ((alInsert l k v).map Prod.fst).Nodup := by
  rw [alInsert_map_fst]
  by_cases hc : alContains l k = true
  · simpa [hc] using h
  · have hnone : alLookup l k = none := by
      cases hl : alLookup l k with
      | none => rfl
      | some w => simp [alContains, hl] at hc
    simp [hc, List.nodup_append]
    refine ⟨h, fun x hx => ?_⟩
    exact alLookup_none_not_mem_keys hnone (List.mem_map_of_mem Prod.fst hx)

/-- Signing an already signed entity with the same data is the identity. -/
theorem Entity.sign_sign (e : Entity) (s : String) (l : Option String) (t : Int) :
    (e.sign s l t).sign s l t = e.sign s l t := by
  cases e <;> rfl

theorem namespaceContext_of_decompose {m : ProvModel} {ns nsname uuid : String}
    (hns : nsDecompose ns = some (nsname, uuid)) :
    m.namespaceContext ns =
      some { m with namespaces := alInsert m.namespaces ns ⟨ns, uuid, nsname⟩ } := by
  unfold ProvModel.namespaceContext
  rw [hns]

/-- C1: for every provenance model (with the hash-map key invariant on the
entity map) and every operation, applying the operation a second time is
the identity: `apply(apply(m, op), op) = apply(m, op)`.  This holds for
every operation variant: a second invocation of the same operation carries
the same key and signature, so the claim's exception clause (a *new* key or
signature) is never exercised by `apply(op); apply(op)`. -/
theorem apply_idempotent (m m' : ProvModel) (tx : ChronicleTransaction)
    (hnd : (m.entities.map Prod.fst).Nodup)
    (h : m.apply tx = some m') : m'.apply tx = some m' := by
  cases tx with
  | createNamespace id name uuid =>
    simp only [ProvModel.apply, Option.some_inj] at h
    subst h
    simp [ProvModel.apply, alInsert_alInsert]
  | createAgent ns name id =>
    cases hns : nsDecompose ns with
    | none => simp [ProvModel.apply, ProvModel.namespaceContext, hns] at h
    | some p =>
      obtain ⟨nsname, uuid⟩ := p
      simp only [ProvModel.apply, namespaceContext_of_decompose hns, Option.bind_eq_bind,
        Option.some_bind, Option.pure_def, Option.some_inj] at h
      subst h
      simp only [ProvModel.apply, namespaceContext_of_decompose hns, Option.bind_eq_bind,
        Option.some_bind, Option.pure_def, Option.some_inj]
      simp [alInsert_alInsert]
  | registerKey ns id publickey name =>
    cases hns : nsDecompose ns with
    | none => simp [ProvModel.apply, ProvModel.namespaceContext, hns] at h
    | some p =>
      obtain ⟨nsname, uuid⟩ := p
      simp only [ProvModel.apply, namespaceContext_of_decompose hns, Option.bind_eq_bind,
        Option.some_bind, Option.pure_def, Option.some_inj] at h
      subst h
      simp only [ProvModel.apply, namespaceContext_of_decompose hns, Option.bind_eq_bind,
        Option.some_bind, Option.pure_def, Option.some_inj]
      by_cases hc : alContains m.agents id = true
      · simp only [hc, if_true]
        have hc₂ : alContains (alUpdate m.agents id
            fun a => { a with publickey := some publickey }) id = true := by
          rw [alContains_alUpdate]; exact hc
        simp [alInsert_alInsert, hc₂]
        exact alUpdate_alUpdate _ _ _ fun b => rfl
      · simp only [hc, if_false]
        have hc₂ : alContains (alUpdate (alInsert m.agents id ⟨id, ns, name, none⟩) id
            fun a => { a with publickey := some publickey }) id = true := by
          rw [alContains_alUpdate]; exact alContains_alInsert_self _ _ _
        simp [alInsert_alInsert, hc₂]
        exact alUpdate_alUpdate _ _ _ fun b => rfl
  | createActivity ns id name =>
    cases hns : nsDecompose ns with
    | none => simp [ProvModel.apply, ProvModel.namespaceContext, hns] at h
    | some p =>
      obtain ⟨nsname, uuid⟩ := p
      simp only [ProvModel.apply, namespaceContext_of_decompose hns, Option.bind_eq_bind,
        Option.some_bind, Option.pure_def, Option.some_inj] at h
      by_cases hc : alContains m.activities id = true
      · simp only [hc, if_true, Option.some_inj] at h
        subst h
        simp only [ProvModel.apply, namespaceContext_of_decompose hns, Option.bind_eq_bind,
          Option.some_bind, Option.pure_def, Option.some_inj]
        simp [alInsert_alInsert, hc]
      · simp only [hc, if_false, Option.some_inj, Bool.false_eq_true] at h
        subst h
        simp only [ProvModel.apply, namespaceContext_of_decompose hns, Option.bind_eq_bind,
          Option.some_bind, Option.pure_def, Option.some_inj]
        simp [alInsert_alInsert, alContains_alInsert_self]
  | startActivity ns id agent time =>
    cases hns : nsDecompose ns with
    | none => simp [ProvModel.apply, ProvModel.namespaceContext, hns] at h
    | some p =>
      obtain ⟨nsname, uuid⟩ := p
      simp only [ProvModel.apply, namespaceContext_of_decompose hns, Option.bind_eq_bind,
        Option.some_bind, Option.pure_def, Option.some_inj] at h
      by_cases hca : alContains m.activities id = true <;>
        by_cases hcg : alContains m.agents agent = true
      · simp only [hca, hcg, if_true, Option.some_bind, Option.some_inj] at h
        subst h
        simp only [ProvModel.apply, namespaceContext_of_decompose hns, Option.bind_eq_bind,
          Option.some_bind, Option.pure_def, Option.some_inj]
        simp [alInsert_alInsert, hca, hcg, relInsert_relInsert]
      · simp only [hca, hcg, if_true, if_false, Bool.false_eq_true, Option.some_bind] at h
        cases hnp : namePartOf agent with
        | none => rw [hnp] at h; simp at h
        | some gname =>
          rw [hnp] at h
          simp only [Option.some_bind, Option.some_inj] at h
          subst h
          simp only [ProvModel.apply, namespaceContext_of_decompose hns, Option.bind_eq_bind,
            Option.some_bind, Option.pure_def, Option.some_inj]
          simp [alInsert_alInsert, hca, alContains_alInsert_self, relInsert_relInsert]
      · simp only [hca, hcg, if_true, if_false, Bool.false_eq_true, Option.some_bind] at h
        cases hnp : namePartOf id with
        | none => rw [hnp] at h; simp at h
        | some aname =>
          rw [hnp] at h
          simp only [Option.some_bind, Option.some_inj] at h
          subst h
          simp only [ProvModel.apply, namespaceContext_of_decompose hns, Option.bind_eq_bind,
            Option.some_bind, Option.pure_def, Option.some_inj]
          simp [alInsert_alInsert, hcg, alContains_alInsert_self, relInsert_relInsert]
      · simp only [hca, hcg, if_false, Bool.false_eq_true, Option.some_bind] at h
        cases hnp : namePartOf id with
        | none => rw [hnp] at h; simp at h
        | some aname =>
          rw [hnp] at h
          simp only [Option.some_bind] at h
          cases hng : namePartOf agent with
          | none => rw [hng] at h; simp at h
          | some gname =>
            rw [hng] at h
            simp only [Option.some_bind, Option.some_inj] at h
            subst h
            simp only [ProvModel.apply, namespaceContext_of_decompose hns, Option.bind_eq_bind,
              Option.some_bind, Option.pure_def, Option.some_inj]
            simp [alInsert_alInsert, alContains_alInsert_self, relInsert_relInsert]
  | endActivity ns id agent time =>
    cases hns : nsDecompose ns with
    | none => simp [ProvModel.apply, ProvModel.namespaceContext, hns] at h
    | some p =>
      obtain ⟨nsname, uuid⟩ := p
      simp only [ProvModel.apply, namespaceContext_of_decompose hns, Option.bind_eq_bind,
        Option.some_bind, Option.pure_def, Option.some_inj] at h
      by_cases hca : alContains m.activities id = true <;>
        by_cases hcg : alContains m.agents agent = true
      · simp only [hca, hcg, if_true, Option.some_bind, Option.some_inj] at h
        subst h
        simp only [ProvModel.apply, namespaceContext_of_decompose hns, Option.bind_eq_bind,
          Option.some_bind, Option.pure_def, Option.some_inj]
        simp [alInsert_alInsert, hca, hcg, relInsert_relInsert]
      · simp only [hca, hcg, if_true, if_false, Bool.false_eq_true, Option.some_bind] at h
        cases hnp : namePartOf agent with
        | none => rw [hnp] at h; simp at h
        | some gname =>
          rw [hnp] at h
          simp only [Option.some_bind, Option.some_inj] at h
          subst h
          simp only [ProvModel.apply, namespaceContext_of_decompose hns, Option.bind_eq_bind,
            Option.some_bind, Option.pure_def, Option.some_inj]
          simp [alInsert_alInsert, hca, alContains_alInsert_self, relInsert_relInsert]
      · simp only [hca, hcg, if_true, if_false, Bool.false_eq_true, Option.some_bind] at h
        cases hnp : namePartOf id with
        | none => rw [hnp] at h; simp at h
        | some aname =>
          rw [hnp] at h
          simp only [Option.some_bind, Option.some_inj] at h
          subst h
          simp only [ProvModel.apply, namespaceContext_of_decompose hns, Option.bind_eq_bind,
            Option.some_bind, Option.pure_def, Option.some_inj]
          simp [alInsert_alInsert, hcg, alContains_alInsert_self, relInsert_relInsert]
      · simp only [hca, hcg, if_false, Bool.false_eq_true, Option.some_bind] at h
        cases hnp : namePartOf id with
        | none => rw [hnp] at h; simp at h
        | some aname =>
          rw [hnp] at h
          simp only [Option.some_bind] at h
          cases hng : namePartOf agent with
          | none => rw [hng] at h; simp at h
          | some gname =>
            rw [hng] at h
            simp only [Option.some_bind, Option.some_inj] at h
            subst h
            simp only [ProvModel.apply, namespaceContext_of_decompose hns, Option.bind_eq_bind,
              Option.some_bind, Option.pure_def, Option.some_inj]
            simp [alInsert_alInsert, alContains_alInsert_self, relInsert_relInsert]
  | activityUses ns id activity =>
    cases hns : nsDecompose ns with
    | none => simp [ProvModel.apply, ProvModel.namespaceContext, hns] at h
    | some p =>
      obtain ⟨nsname, uuid⟩ := p
      simp only [ProvModel.apply, namespaceContext_of_decompose hns, Option.bind_eq_bind,
        Option.some_bind, Option.pure_def, Option.some_inj] at h
      by_cases hca : alContains m.activities activity = true <;>
        by_cases hce : alContains m.entities id = true
      · simp only [hca, hce, if_true, Option.some_bind, Option.some_inj] at h
        subst h
        simp only [ProvModel.apply, namespaceContext_of_decompose hns, Option.bind_eq_bind,
          Option.some_bind, Option.pure_def, Option.some_inj]
        simp [alInsert_alInsert, hca, hce, relInsert_relInsert]
      · simp only [hca, hce, if_true, if_false, Bool.false_eq_true, Option.some_bind] at h
        cases hnp : namePartOf id with
        | none => rw [hnp] at h; simp at h
        | some ename =>
          rw [hnp] at h
          simp only [Option.some_bind, Option.some_inj] at h
          subst h
          simp only [ProvModel.apply, namespaceContext_of_decompose hns, Option.bind_eq_bind,
            Option.some_bind, Option.pure_def, Option.some_inj]
          simp [alInsert_alInsert, hca, alContains_alInsert_self, relInsert_relInsert]
      · simp only [hca, hce, if_true, if_false, Bool.false_eq_true, Option.some_bind] at h
        cases hnp : namePartOf activity with
        | none => rw [hnp] at h; simp at h
        | some aname =>
          rw [hnp] at h
          simp only [Option.some_bind, Option.some_inj] at h
          subst h
          simp only [ProvModel.apply, namespaceContext_of_decompose hns, Option.bind_eq_bind,
            Option.some_bind, Option.pure_def, Option.some_inj]
          simp [alInsert_alInsert, hce, alContains_alInsert_self, relInsert_relInsert]
      · simp only [hca, hce, if_false, Bool.false_eq_true, Option.some_bind] at h
        cases hnp : namePartOf activity with
        | none => rw [hnp] at h; simp at h
        | some aname =>
          rw [hnp] at h
          simp only [Option.some_bind] at h
          cases hne : namePartOf id with
          | none => rw [hne] at h; simp at h
          | some ename =>
            rw [hne] at h
            simp only [Option.some_bind, Option.some_inj] at h
            subst h
            simp only [ProvModel.apply, namespaceContext_of_decompose hns, Option.bind_eq_bind,
              Option.some_bind, Option.pure_def, Option.some_inj]
            simp [alInsert_alInsert, alContains_alInsert_self, relInsert_relInsert]
  | generateEntity ns id activity =>
    cases hns : nsDecompose ns with
    | none => simp [ProvModel.apply, ProvModel.namespaceContext, hns] at h
    | some p =>
      obtain ⟨nsname, uuid⟩ := p
      simp only [ProvModel.apply, namespaceContext_of_decompose hns, Option.bind_eq_bind,
        Option.some_bind, Option.pure_def, Option.some_inj] at h
      by_cases hca : alContains m.activities activity = true <;>
        by_cases hce : alContains m.entities id = true
      · simp only [hca, hce, if_true, Option.some_bind, Option.some_inj] at h
        subst h
        simp only [ProvModel.apply, namespaceContext_of_decompose hns, Option.bind_eq_bind,
          Option.some_bind, Option.pure_def, Option.some_inj]
        simp [alInsert_alInsert, hca, hce, relInsert_relInsert]
      · simp only [hca, hce, if_true, if_false, Bool.false_eq_true, Option.some_bind] at h
        cases hnp : namePartOf id with
        | none => rw [hnp] at h; simp at h
        | some ename =>
          rw [hnp] at h
          simp only [Option.some_bind, Option.some_inj] at h
          subst h
          simp only [ProvModel.apply, namespaceContext_of_decompose hns, Option.bind_eq_bind,
            Option.some_bind, Option.pure_def, Option.some_inj]
          simp [alInsert_alInsert, hca, alContains_alInsert_self, relInsert_relInsert]
      · simp only [hca, hce, if_true, if_false, Bool.false_eq_true, Option.some_bind] at h
        cases hnp : namePartOf activity with
        | none => rw [hnp] at h; simp at h
        | some aname =>
          rw [hnp] at h
          simp only [Option.some_bind, Option.some_inj] at h
          subst h
          simp only [ProvModel.apply, namespaceContext_of_decompose hns, Option.bind_eq_bind,
            Option.some_bind, Option.pure_def, Option.some_inj]
          simp [alInsert_alInsert, hce, alContains_alInsert_self, relInsert_relInsert]
      · simp only [hca, hce, if_false, Bool.false_eq_true, Option.some_bind] at h
        cases hnp : namePartOf activity with
        | none => rw [hnp] at h; simp at h
        | some aname =>
          rw [hnp] at h
          simp only [Option.some_bind] at h
          cases hne : namePartOf id with
          | none => rw [hne] at h; simp at h
          | some ename =>
            rw [hne] at h
            simp only [Option.some_bind, Option.some_inj] at h
            subst h
            simp only [ProvModel.apply, namespaceContext_of_decompose hns, Option.bind_eq_bind,
              Option.some_bind, Option.pure_def, Option.some_inj]
            simp [alInsert_alInsert, alContains_alInsert_self, relInsert_relInsert]
  | entityAttach ns id agent signature locator signatureTime =>
    cases hns : nsDecompose ns with
    | none => simp [ProvModel.apply, ProvModel.namespaceContext, hns] at h
    | some p =>
      obtain ⟨nsname, uuid⟩ := p
      simp only [ProvModel.apply, namespaceContext_of_decompose hns, Option.bind_eq_bind,
        Option.some_bind, Option.pure_def, Option.some_inj] at h
      by_cases hce : alContains m.entities id = true <;>
        by_cases hcg : alContains m.agents agent = true
      · simp only [hce, hcg, if_true, Option.some_bind] at h
        cases hrem : alRemove m.entities id with
        | none => rw [hrem] at h; simp at h
        | some pr =>
          obtain ⟨u, rest⟩ := pr
          rw [hrem] at h
          simp only [Option.pure_def, Option.some_inj] at h
          subst h
          have hrestnone : alLookup rest id = none := alRemove_lookup_none hnd hrem
          have hins : alInsert rest id (u.sign signature locator signatureTime)
              = rest ++ [(id, u.sign signature locator signatureTime)] :=
            alInsert_append_of_lookup_none hrestnone _
          simp only [ProvModel.apply, namespaceContext_of_decompose hns, Option.bind_eq_bind,
            Option.some_bind, Option.pure_def, Option.some_inj]
          have hcont : alContains
              (alInsert rest id (u.sign signature locator signatureTime)) id = true :=
            alContains_alInsert_self _ _ _
          simp only [alInsert_alInsert, hcont, if_true, hcg]
          rw [hins, alRemove_append_singleton hrestnone]
          simp [Entity.sign_sign, ← hins]
      · simp only [hce, hcg, if_true, if_false, Bool.false_eq_true, Option.some_bind] at h
        cases hng : namePartOf agent with
        | none => rw [hng] at h; simp at h
        | some gname =>
          rw [hng] at h
          simp only [Option.some_bind] at h
          cases hrem : alRemove m.entities id with
          | none => rw [hrem] at h; simp at h
          | some pr =>
            obtain ⟨u, rest⟩ := pr
            rw [hrem] at h
            simp only [Option.pure_def, Option.some_inj] at h
            subst h
            have hrestnone : alLookup rest id = none := alRemove_lookup_none hnd hrem
            have hins : alInsert rest id (u.sign signature locator signatureTime)
                = rest ++ [(id, u.sign signature locator signatureTime)] :=
              alInsert_append_of_lookup_none hrestnone _
            simp only [ProvModel.apply, namespaceContext_of_decompose hns, Option.bind_eq_bind,
              Option.some_bind, Option.pure_def, Option.some_inj]
            have hcont : alContains
                (alInsert rest id (u.sign signature locator signatureTime)) id = true :=
              alContains_alInsert_self _ _ _
            simp only [alInsert_alInsert, hcont, if_true, alContains_alInsert_self]
            rw [hins, alRemove_append_singleton hrestnone]
            simp [Entity.sign_sign, ← hins]
      · simp only [hce, hcg, if_true, if_false, Bool.false_eq_true, Option.some_bind] at h
        cases hne : namePartOf id with
        | none => rw [hne] at h; simp at h
        | some ename =>
          rw [hne] at h
          simp only [Option.some_bind] at h
          have hlk : alLookup m.entities id = none := by
            cases he : alLookup m.entities id with
            | none => rfl
            | some w => simp [alContains, he] at hce
          have hstub : alInsert m.entities id (Entity.unsigned id ns ename)
              = m.entities ++ [(id, Entity.unsigned id ns ename)] :=
            alInsert_append_of_lookup_none hlk _
          rw [hstub, alRemove_append_singleton hlk] at h
          simp only [Option.pure_def, Option.some_inj] at h
          subst h
          simp only [ProvModel.apply, namespaceContext_of_decompose hns, Option.bind_eq_bind,
            Option.some_bind, Option.pure_def, Option.some_inj]
          have hins : alInsert m.entities id
              ((Entity.unsigned id ns ename).sign signature locator signatureTime)
              = m.entities ++
                [(id, (Entity.unsigned id ns ename).sign signature locator signatureTime)] :=
            alInsert_append_of_lookup_none hlk _
          have hcont : alContains (alInsert m.entities id
              ((Entity.unsigned id ns ename).sign signature locator signatureTime)) id = true :=
            alContains_alInsert_self _ _ _
          simp only [alInsert_alInsert, hcont, if_true, hcg]
          rw [hins, alRemove_append_singleton hlk]
          simp [Entity.sign_sign, ← hins]
      · simp only [hce, hcg, if_false, Bool.false_eq_true, Option.some_bind] at h
        cases hne : namePartOf id with
        | none => rw [hne] at h; simp at h
        | some ename =>
          rw [hne] at h
          simp only [Option.some_bind] at h
          cases hng : namePartOf agent with
          | none => rw [hng] at h; simp at h
          | some gname =>
            rw [hng] at h
            simp only [Option.some_bind] at h
            have hlk : alLookup m.entities id = none := by
              cases he : alLookup m.entities id with
              | none => rfl
              | some w => simp [alContains, he] at hce
            have hstub : alInsert m.entities id (Entity.unsigned id ns ename)
                = m.entities ++ [(id, Entity.unsigned id ns ename)] :=
              alInsert_append_of_lookup_none hlk _
            rw [hstub, alRemove_append_singleton hlk] at h
            simp only [Option.pure_def, Option.some_inj] at h
            subst h
            simp only [ProvModel.apply, namespaceContext_of_decompose hns, Option.bind_eq_bind,
              Option.some_bind, Option.pure_def, Option.some_inj]
            have hins : alInsert m.entities id
                ((Entity.unsigned id ns ename).sign signature locator signatureTime)
                = m.entities ++
                  [(id, (Entity.unsigned id ns ename).sign signature locator signatureTime)] :=
              alInsert_append_of_lookup_none hlk _
            have hcont : alContains (alInsert m.entities id
                ((Entity.unsigned id ns ename).sign signature locator signatureTime)) id = true :=
              alContains_alInsert_self _ _ _
            simp only [alInsert_alInsert, hcont, if_true, alContains_alInsert_self]
            rw [hins, alRemove_append_singleton hlk]
            simp [Entity.sign_sign, ← hins]

theorem alLookup_relInsert_self (r : List (String × List String)) (k v : String) :
    alLookup (relInsert r k v) k = some (setInsert ((alLookup r k).getD []) v) := by
  unfold relInsert
  exact alLookup_alInsert_self _ _ _

/-! ## Concrete test fixtures -/

/-- A well-formed namespace identifier used by the concrete witnesses. -/
def cNs : String := "chronicle:ns:testns:5a0ab5b8-eeb7-4812-9fe3-6dd69bd20cea"

/-- The UUID carried by `cNs`. -/
def cUuid : String := "5a0ab5b8-eeb7-4812-9fe3-6dd69bd20cea"

/-- A well-formed activity identifier. -/
def cAid : String := "chronicle:activity:testactivity"

/-- A well-formed agent identifier. -/
def cAg : String := "chronicle:agent:testagent"

/-- A well-formed entity identifier. -/
def cEid : String := "chronicle:entity:testentity"

/-- The model reached by one `StartActivity` on the empty model. -/
def cStartModel : ProvModel :=
  (ProvModel.apply {} (.startActivity cNs cAid cAg 5)).getD {}

/-- Witness for the idempotence theorem: a concrete `StartActivity` applied
to the empty model, whose hypotheses (entity-key distinctness and a
successful first application) are discharged by evaluation. -/
theorem apply_idempotent_witness :
    (({} : ProvModel).entities.map Prod.fst).Nodup ∧
    ProvModel.apply {} (.startActivity cNs cAid cAg 5) = some cStartModel ∧
    cStartModel.apply (.startActivity cNs cAid cAg 5) = some cStartModel := by
  refine ⟨by decide, by decide, ?_⟩
  exact apply_idempotent {} cStartModel (.startActivity cNs cAid cAg 5) (by decide) (by decide)

/-- C3 (amended): applying `EndActivity` never fails with a constraint
violation — the source compares no times at all; it records the ended time
only when the target activity does not yet exist (the created stub carries
`ended` and an empty `started`), leaves an existing activity record
entirely unchanged (in particular the end time is not recorded), and always
adds the agent to the activity's was-associated-with set. -/
theorem endActivity_characterisation (m m' : ProvModel) (ns id agent : String) (time : Int)
    (h : m.apply (.endActivity ns id agent time) = some m') :
    agent ∈ (alLookup m'.wasAssociatedWith id).getD [] ∧
    (alContains m.activities id = false →
      alLookup m'.activities id = some ⟨id, ns, (namePartOf id).getD "", none, some time⟩) ∧
    (∀ a, alLookup m.activities id = some a → alLookup m'.activities id = some a) := by
  cases hns : nsDecompose ns with
  | none => simp [ProvModel.apply, ProvModel.namespaceContext, hns] at h
  | some p =>
    obtain ⟨nsname, uuid⟩ := p
    simp only [ProvModel.apply, namespaceContext_of_decompose hns, Option.bind_eq_bind,
      Option.some_bind, Option.pure_def, Option.some_inj] at h
    by_cases hca : alContains m.activities id = true <;>
      by_cases hcg : alContains m.agents agent = true
    · simp only [hca, hcg, if_true, Option.some_bind, Option.some_inj] at h
      subst h
      refine ⟨?_, ?_, ?_⟩
      · simp [alLookup_relInsert_self, mem_setInsert_self]
      · intro hfalse; rw [hca] at hfalse; cases hfalse
      · intro a ha; simpa using ha
    · simp only [hca, hcg, if_true, if_false, Bool.false_eq_true, Option.some_bind] at h
      cases hng : namePartOf agent with
      | none => rw [hng] at h; simp at h
      | some gname =>
        rw [hng] at h
        simp only [Option.some_bind, Option.some_inj] at h
        subst h
        refine ⟨?_, ?_, ?_⟩
        · simp [alLookup_relInsert_self, mem_setInsert_self]
        · intro hfalse; rw [hca] at hfalse; cases hfalse
        · intro a ha; simpa using ha
    · simp only [hca, hcg, if_true, if_false, Bool.false_eq_true, Option.some_bind] at h
      cases hnp : namePartOf id with
      | none => rw [hnp] at h; simp at h
      | some aname =>
        rw [hnp] at h
        simp only [Option.some_bind, Option.some_inj] at h
        subst h
        refine ⟨?_, ?_, ?_⟩
        · simp [alLookup_relInsert_self, mem_setInsert_self]
        · intro _; simp [alLookup_alInsert_self, hnp]
        · intro a ha
          exact absurd (alContains_of_lookup ha) (by simpa using hca)
    · simp only [hca, hcg, if_false, Bool.false_eq_true, Option.some_bind] at h
      cases hnp : namePartOf id with
      | none => rw [hnp] at h; simp at h
      | some aname =>
        rw [hnp] at h
        simp only [Option.some_bind] at h
        cases hng : namePartOf agent with
        | none => rw [hng] at h; simp at h
        | some gname =>
          rw [hng] at h
          simp only [Option.some_bind, Option.some_inj] at h
          subst h
          refine ⟨?_, ?_, ?_⟩
          · simp [alLookup_relInsert_self, mem_setInsert_self]
          · intro _; simp [alLookup_alInsert_self, hnp]
          · intro a ha
            exact absurd (alContains_of_lookup ha) (by simpa using hca)

/-- Counterexample to C3 as stated: after `StartActivity` at time 5, an
`EndActivity` at time 7 (no constraint violated, so per the claim the end
time should be recorded) leaves the activity's `ended` field empty; and an
`EndActivity` at time 3 (earlier than the start, which per the claim must
fail) succeeds as well. -/
theorem endActivity_counterexample :
    ((ProvModel.fromTx [.startActivity cNs cAid cAg 5, .endActivity cNs cAid cAg 7]).bind
      fun m => (alLookup m.activities cAid).map Activity.ended) = some none ∧
    (ProvModel.fromTx [.startActivity cNs cAid cAg 5, .endActivity cNs cAid cAg 3]).isSome
      = true := by decide

/-- Witness for the amended C3 theorem at a concrete model: ending a fresh
activity records the stub with the end time and associates the agent. -/
theorem endActivity_characterisation_witness :
    ProvModel.apply {} (.endActivity cNs cAid cAg 7) = some
      ((ProvModel.apply {} (.endActivity cNs cAid cAg 7)).getD {}) ∧
    cAg ∈ (alLookup ((ProvModel.apply {} (.endActivity cNs cAid cAg 7)).getD {}).wasAssociatedWith
      cAid).getD [] := by
  refine ⟨by decide, ?_⟩
  exact (endActivity_characterisation {} _ cNs cAid cAg 7 (by decide)).1

/-- C4 (amended): after `StartActivity` the was-associated-with set of the
activity contains the agent, and when the activity did not previously exist
it is created with `started` set to the given time; an activity that
already exists is left entirely unchanged — in particular an empty
`started` field of an existing activity is *not* filled in. -/
theorem startActivity_characterisation (m m' : ProvModel) (ns id agent : String) (time : Int)
    (h : m.apply (.startActivity ns id agent time) = some m') :
    agent ∈ (alLookup m'.wasAssociatedWith id).getD [] ∧
    (alContains m.activities id = false →
      alLookup m'.activities id = some ⟨id, ns, (namePartOf id).getD "", some time, none⟩) ∧
    (∀ a, alLookup m.activities id = some a → alLookup m'.activities id = some a) := by
  cases hns : nsDecompose ns with
  | none => simp [ProvModel.apply, ProvModel.namespaceContext, hns] at h
  | some p =>
    obtain ⟨nsname, uuid⟩ := p
    simp only [ProvModel.apply, namespaceContext_of_decompose hns, Option.bind_eq_bind,
      Option.some_bind, Option.pure_def, Option.some_inj] at h
    by_cases hca : alContains m.activities id = true <;>
      by_cases hcg : alContains m.agents agent = true
    · simp only [hca, hcg, if_true, Option.some_bind, Option.some_inj] at h
      subst h
      refine ⟨?_, ?_, ?_⟩
      · simp [alLookup_relInsert_self, mem_setInsert_self]
      · intro hfalse; rw [hca] at hfalse; cases hfalse
      · intro a ha; simpa using ha
    · simp only [hca, hcg, if_true, if_false, Bool.false_eq_true, Option.some_bind] at h
      cases hng : namePartOf agent with
      | none => rw [hng] at h; simp at h
      | some gname =>
        rw [hng] at h
        simp only [Option.some_bind, Option.some_inj] at h
        subst h
        refine ⟨?_, ?_, ?_⟩
        · simp [alLookup_relInsert_self, mem_setInsert_self]
        · intro hfalse; rw [hca] at hfalse; cases hfalse
        · intro a ha; simpa using ha
    · simp only [hca, hcg, if_true, if_false, Bool.false_eq_true, Option.some_bind] at h
      cases hnp : namePartOf id with
      | none => rw [hnp] at h; simp at h
      | some aname =>
        rw [hnp] at h
        simp only [Option.some_bind, Option.some_inj] at h
        subst h
        refine ⟨?_, ?_, ?_⟩
        · simp [alLookup_relInsert_self, mem_setInsert_self]
        · intro _; simp [alLookup_alInsert_self, hnp]
        · intro a ha
          exact absurd (alContains_of_lookup ha) (by simpa using hca)
    · simp only [hca, hcg, if_false, Bool.false_eq_true, Option.some_bind] at h
      cases hnp : namePartOf id with
      | none => rw [hnp] at h; simp at h
      | some aname =>
        rw [hnp] at h
        simp only [Option.some_bind] at h
        cases hng : namePartOf agent with
        | none => rw [hng] at h; simp at h
        | some gname =>
          rw [hng] at h
          simp only [Option.some_bind, Option.some_inj] at h
          subst h
          refine ⟨?_, ?_, ?_⟩
          · simp [alLookup_relInsert_self, mem_setInsert_self]
          · intro _; simp [alLookup_alInsert_self, hnp]
          · intro a ha
            exact absurd (alContains_of_lookup ha) (by simpa using hca)

/-- Counterexample to C4 as stated: an activity created by
`CreateActivity` has an empty `started` field, yet a subsequent
`StartActivity` leaves it empty — the claim requires it to be set to the
given time whenever it was previously empty. -/
theorem startActivity_counterexample :
    ((ProvModel.fromTx [.createActivity cNs cAid "testactivity",
        .startActivity cNs cAid cAg 5]).bind
      fun m => (alLookup m.activities cAid).map Activity.started) = some none := by decide

/-- Witness for the amended C4 theorem at a concrete model: starting a
fresh activity records the start time and associates the agent. -/
theorem startActivity_characterisation_witness :
    ProvModel.apply {} (.startActivity cNs cAid cAg 5) = some cStartModel ∧
    cAg ∈ (alLookup cStartModel.wasAssociatedWith cAid).getD [] ∧
    alLookup cStartModel.activities cAid
      = some ⟨cAid, cNs, (namePartOf cAid).getD "", some 5, none⟩ := by
  refine ⟨by decide, ?_, ?_⟩
  · exact (startActivity_characterisation {} cStartModel cNs cAid cAg 5 (by decide)).1
  · exact (startActivity_characterisation {} cStartModel cNs cAid cAg 5 (by decide)).2.1
      (by decide)

/-- C10 (amended): for every model and every `EntityAttach` operation whose
identifiers decompose (a namespace id with a name and a parsable UUID, and
entity and agent ids with a name segment), `apply` succeeds: in particular
the remove-then-unwrap on the entity map always finds the entity, because
an unsigned stub is inserted just before when it is absent.  (Without the
well-formedness hypotheses `apply` can still panic inside `decompose`, which
is what the counterexample exhibits.) -/
theorem entityAttach_total (m : ProvModel) (ns id agent sig : String)
    (loc : Option String) (t : Int) (nsname uuid ename gname : String)
    (hns : nsDecompose ns = some (nsname, uuid))
    (hid : namePartOf id = some ename) (hag : namePartOf agent = some gname) :
    (m.apply (.entityAttach ns id agent sig loc t)).isSome = true := by
  simp only [ProvModel.apply, namespaceContext_of_decompose hns, Option.bind_eq_bind,
    Option.some_bind, Option.pure_def]
  by_cases hce : alContains m.entities id = true <;>
    by_cases hcg : alContains m.agents agent = true <;>
      simp only [hce, hcg, if_true, if_false, Bool.false_eq_true, hid, hag, Option.some_bind]
  · cases hrem : alRemove m.entities id with
    | none =>
      have := alRemove_isSome_of_contains hce
      rw [hrem] at this
      cases this
    | some pr => simp [hrem]
  · cases hrem : alRemove m.entities id with
    | none =>
      have := alRemove_isSome_of_contains hce
      rw [hrem] at this
      cases this
    | some pr => simp [hrem]
  · cases hrem : alRemove (alInsert m.entities id (Entity.unsigned id ns ename)) id with
    | none =>
      have := alRemove_isSome_of_contains (alContains_alInsert_self m.entities id
        (Entity.unsigned id ns ename))
      rw [hrem] at this
      cases this
    | some pr => simp [hrem]
  · cases hrem : alRemove (alInsert m.entities id (Entity.unsigned id ns ename)) id with
    | none =>
      have := alRemove_isSome_of_contains (alContains_alInsert_self m.entities id
        (Entity.unsigned id ns ename))
      rw [hrem] at this
      cases this
    | some pr => simp [hrem]

/-- Counterexample to C10 as stated (total for *every* operation): an
`EntityAttach` whose namespace identifier has no UUID segment panics in
`NamespaceId::decompose` (`unreachable!()`), modelled as `none` — before
the remove-then-unwrap is ever reached. -/
theorem entityAttach_counterexample :
    ProvModel.apply {} (.entityAttach "badns" cEid cAg "0afe" none 0) = none := by decide

/-- Witness for the amended C10 theorem: a concrete attach on the empty
model (entity absent, so the stub path runs) succeeds. -/
theorem entityAttach_total_witness :
    nsDecompose cNs = some ("testns", cUuid) ∧
    namePartOf cEid = some "testentity" ∧
    namePartOf cAg = some "testagent" ∧
    (ProvModel.apply {} (.entityAttach cNs cEid cAg "0afe" none 42)).isSome = true := by
  refine ⟨by decide, by decide, by decide, ?_⟩
  exact entityAttach_total {} cNs cEid cAg "0afe" none 42 "testns" cUuid "testentity"
    "testagent" (by decide) (by decide) (by decide)

theorem decStr_encStr (s : String) (rest : List Nat) :
    decStr (encStr s ++ rest) = some (s, rest) := by
  have hlen : s.length = (s.data.map Char.toNat).length := by
    rw [List.length_map]
    rfl
  simp only [encStr, List.cons_append, decStr]
  rw [if_pos (by rw [List.length_append]; omega)]
  rw [hlen, List.take_left, List.drop_left]
  have hcomp : ∀ l : List Char, List.map Char.ofNat (List.map Char.toNat l) = l := by
    intro l
    induction l with
    | nil => rfl
    | cons c cs ih => simp only [List.map_cons, Char.ofNat_toNat, ih]
  rw [hcomp]

theorem decStrs_encStrs (l : List String) (rest : List Nat) :
    decStrs l.length ((l.map encStr).flatten ++ rest) = some (l, rest) := by
  induction l generalizing rest with
  | nil => simp [decStrs]
  | cons hd tl ih =>
    simp only [List.length_cons, List.map_cons, List.flatten_cons, List.append_assoc, decStrs,
      Option.bind_eq_bind, Option.pure_def]
    rw [decStr_encStr]
    simp only [Option.some_bind]
    rw [ih]
    simp

/-- C5 (amended): the envelope codec round-trips every submission
regardless of its protocol version — decoding performs no version check and
never rejects an unrecognised version — and the transaction processor's
envelope handling discards the version field and passes the body on for
execution unchanged. -/
theorem submission_version_ignored (s : Submission) :
    deserializeSubmission (serializeSubmission s) = some s ∧
    tpSubmissionBody s = s.body := by
  constructor
  · simp only [serializeSubmission, deserializeSubmission, List.append_assoc,
      Option.bind_eq_bind, Option.pure_def]
    rw [decStr_encStr]
    simp only [Option.some_bind]
    rw [decStr_encStr]
    simp only [Option.some_bind]
    have := decStrs_encStrs s.body []
    rw [List.append_nil] at this
    rw [this]
    simp
  · rfl

/-- Counterexample to C5 as stated: an envelope whose protocol version is
`"2"` decodes successfully (there is no `UnsupportedProtocolVersion`
rejection anywhere in the decode path) and its operation body reaches the
executor unchanged. -/
theorem submission_version_counterexample :
    deserializeSubmission (serializeSubmission ⟨"2", "span", ["op-json"]⟩)
      = some ⟨"2", "span", ["op-json"]⟩ ∧
    (⟨"2", "span", ["op-json"]⟩ : Submission).version ≠ "1" ∧
    tpSubmissionBody ⟨"2", "span", ["op-json"]⟩ = ["op-json"] := by
  refine ⟨?_, by decide, rfl⟩
  exact (submission_version_ignored ⟨"2", "span", ["op-json"]⟩).1

/-- The sequence of disambiguated names produced for repeated requests of
the name `a`: the first row keeps `a`, the `k`-th (k ≥ 1) receives the
suffix `-<max rowid>` = `-k`. -/
def aName : Nat → String
  | 0 => "a"
  | j + 1 => "a" ++ "-" ++ toString (j + 1)

/-- The projection state after `k` `CreateActivity` commands for the
requested name `a` in namespace `testns`. -/
def dbState (k : Nat) : ProjDb :=
  ⟨[⟨1, "testns", cUuid⟩], (List.range k).map fun i => ⟨i + 1, 1, aName i, none, none⟩⟩

theorem maxActivityRowid_dbState (k : Nat) : maxActivityRowid (dbState k) = k := by
  induction k with
  | zero => rfl
  | succ n ih =>
    unfold maxActivityRowid dbState at ih ⊢
    rw [List.range_succ, List.map_append, List.foldl_append, ih]
    simp [Nat.max_eq_right (Nat.le_succ n)]

set_option maxRecDepth 8000 in
theorem createActivityCommand_dbState (k : Nat) (hk : k < 100) :
    createActivityCommand (dbState k) "a" cNs = some (dbState (k + 1)) := by
  have hns : nsDecompose cNs = some ("testns", cUuid) := by decide
  have hinj : ∀ i, i < 100 → ∀ j, j < 100 → i ≠ j → aName i ≠ aName j := by decide
  unfold createActivityCommand disambiguateActivityName
  rw [hns]
  simp only [Option.bind_eq_bind, Option.some_bind, Option.pure_def]
  cases k with
  | zero => decide
  | succ n =>
    have hcol : ((dbState (n + 1)).actRows.filter fun r =>
        r.name == "a" && ((dbState (n + 1)).nsRows.any fun x =>
          x.id == r.nsid && x.name == "testns")).length ≠ 0 := by
      have hmem : (⟨1, 1, aName 0, none, none⟩ : ActivityRow) ∈ (dbState (n + 1)).actRows := by
        simp only [dbState]
        exact List.mem_map.mpr ⟨0, List.mem_range.mpr (Nat.succ_pos n), rfl⟩
      have hin : (⟨1, 1, aName 0, none, none⟩ : ActivityRow) ∈
          ((dbState (n + 1)).actRows.filter fun r =>
            r.name == "a" && ((dbState (n + 1)).nsRows.any fun x =>
              x.id == r.nsid && x.name == "testns")) :=
        List.mem_filter.mpr ⟨hmem, by rfl⟩
      exact Nat.pos_iff_ne_zero.mp (List.length_pos.mpr (List.ne_nil_of_mem hin))
    rw [if_neg hcol]
    simp only [Option.some_bind]
    have hnsrow : namespaceRowByName (dbState (n + 1)) "testns"
        = some ⟨1, "testns", cUuid⟩ := rfl
    rw [hnsrow]
    simp only [Option.some_bind, Option.some_inj]
    rw [maxActivityRowid_dbState]
    unfold applyActivityRow
    have hany : ((dbState (n + 1)).actRows.any fun r =>
        r.name == ("a" ++ "-" ++ toString (n + 1)) && r.nsid == 1) = false := by
      rw [List.any_eq_false]
      intro r hr
      simp only [dbState] at hr
      rcases List.mem_map.mp hr with ⟨i, hi, hri⟩
      have hi2 : i < n + 1 := List.mem_range.mp hi
      subst hri
      have hne : aName i ≠ aName (n + 1) :=
        hinj i (by omega) (n + 1) (by omega) (by omega)
      have hne2 : aName i ≠ "a" ++ "-" ++ toString (n + 1) := hne
      intro hc
      rw [Bool.and_eq_true, beq_iff_eq, beq_iff_eq] at hc
      exact hne2 hc.1
    rw [hany]
    simp only [Bool.false_eq_true, if_false]
    rw [maxActivityRowid_dbState]
    simp only [dbState, List.range_succ, List.map_append]
    rfl

theorem iterateCreateActivity_dbState (n : Nat) :
    ∀ k, k + n ≤ 100 →
      iterateCreateActivity (dbState k) "a" cNs n = some (dbState (k + n)) := by
  induction n with
  | zero => intro k _; simp [iterateCreateActivity]
  | succ n ih =>
    intro k hk
    rw [iterateCreateActivity]
    rw [createActivityCommand_dbState k (by omega)]
    simp only [Option.bind_eq_bind, Option.some_bind]
    rw [show k + (n + 1) = (k + 1) + n by omega]
    exact ih (k + 1) (by omega)

/-- C7: (general rule) when the requested activity name collides with an
existing activity row of the same namespace, the disambiguated name is the
requested name suffixed with the maximum rowid of the whole activity
table, `<name>-<max(rowid)>`; and (scenario) one hundred `CreateActivity`
commands for the name `a` produce exactly the rows named
`a, a-1, a-2, …, a-99`. -/
theorem disambiguation_rowid_suffix :
    (∀ (db : ProjDb) (name namespaceid nsname uuid : String),
      nsDecompose namespaceid = some (nsname, uuid) →
      (db.actRows.filter fun r =>
        r.name == name && (db.nsRows.any fun n => n.id == r.nsid && n.name == nsname)).length ≠ 0 →
      disambiguateActivityName db name namespaceid
        = some (name ++ "-" ++ toString (maxActivityRowid db))) ∧
    (iterateCreateActivity ⟨[⟨1, "testns", cUuid⟩], []⟩ "a" cNs 100).map
        (fun db => db.actRows.map (fun r => r.name))
      = some ("a" :: ((List.range 99).map fun i => "a" ++ "-" ++ toString (i + 1))) := by
  constructor
  · intro db name namespaceid nsname uuid hns hcol
    unfold disambiguateActivityName
    rw [hns]
    simp only [Option.bind_eq_bind, Option.some_bind, Option.pure_def]
    rw [if_neg hcol]
  · have h0 : (⟨[⟨1, "testns", cUuid⟩], []⟩ : ProjDb) = dbState 0 := rfl
    rw [h0, iterateCreateActivity_dbState 100 0 (by omega)]
    have hnames : ((List.range 100).map fun i =>
          (⟨i + 1, 1, aName i, none, none⟩ : ActivityRow)).map (fun r => r.name)
        = "a" :: ((List.range 99).map fun i => "a" ++ "-" ++ toString (i + 1)) := by
      rw [List.map_map]
      rw [show (100 : Nat) = 99 + 1 from rfl, List.range_succ_eq_map]
      rw [List.map_cons, List.map_map]
      rfl
    exact congrArg some hnames

/-- Witness for C7 at a concrete database: one existing row named `a`
collides, and the disambiguated name is `a-1`. -/
theorem disambiguation_rowid_suffix_witness :
    nsDecompose cNs = some ("testns", cUuid) ∧
    ((dbState 1).actRows.filter fun r =>
      r.name == "a" && ((dbState 1).nsRows.any fun n =>
        n.id == r.nsid && n.name == "testns")).length ≠ 0 ∧
    disambiguateActivityName (dbState 1) "a" cNs
      = some ("a" ++ "-" ++ toString (maxActivityRowid (dbState 1))) := by
  refine ⟨by decide, by decide, ?_⟩
  exact disambiguation_rowid_suffix.1 (dbState 1) "a" cNs "testns" cUuid
    (by decide) (by decide)

/-- The projection state exhibiting the C8 failing input: two activities in
namespace `testns`, one started at time 10 and one at time 20. -/
def lastStartedDb : ProjDb :=
  ⟨[⟨1, "testns", cUuid⟩],
   [⟨1, 1, "early", some 10, none⟩, ⟨2, 1, "late", some 20, none⟩]⟩

/-- C8 failing input, evaluated: with no activity name given the code
returns the *earliest*-started activity (`ORDER BY started` is ascending
and `first()` takes the head), not the most recently started one required
by the claim and by the function's own doc comment; the by-name branch does
return the named activity.  A further divergence (not needed for the
refutation): the last-started branch ignores the namespace entirely. -/
theorem lastStarted_returns_earliest :
    (getActivityByNameOrLastStarted lastStartedDb none cNs).map (fun r => r.name)
      = some "early" ∧
    (getActivityByNameOrLastStarted lastStartedDb (some "late") cNs).map (fun r => r.name)
      = some "late" ∧
    ((lastStartedDb.actRows.map fun r => r.started).filterMap id).foldl max 0 = 20 := by
  decide

/-- The projection state for the C9 failing input: one namespace, one agent
holding one identity, empty attachment table. -/
def attachDb : AttachStoreDb :=
  ⟨[⟨1, "testns", cUuid⟩], [⟨1, 1, "testagent", 0, some 1⟩], [⟨1, 1, "0aab"⟩], []⟩

/-- The C9 failing input: an attachment whose model-recorded signature time
is 100. -/
def attachInput : Attachment :=
  ⟨"chronicle:attachment:testentity:0afe", cNs, "0afe",
   "chronicle:identity:testagent:0aab", none, 100⟩

/-- C9 failing input, evaluated: replaying an attachment whose recorded
signature time is 100 at wall-clock time 999 writes an attachment row whose
`signature_time` column is 999 — the wall clock — although the signature,
signer and locator are carried over; the claim (and §6.4's information-
preservation requirement) demand the model's own value 100. -/
theorem applyAttachment_writes_wall_clock :
    attachInput.signatureTime = 100 ∧
    (applyAttachment attachDb attachInput
        [(cNs, ⟨cNs, cUuid, "testns"⟩)] 999).map
      (fun db => db.attachmentRows.map fun r => (r.signature, r.signerId, r.locator,
        r.signatureTime))
      = some [("0afe", 1, none, 999)] := by
  decide

/-- Content equality of two models: all eight maps agree pointwise.  This
is the `HashMap` equality of the Rust model; the embedding's list order
(standing for the unspecified iteration order) is irrelevant to it. -/
def ProvModel.Equiv (m₁ m₂ : ProvModel) : Prop :=
  (∀ k, alLookup m₁.namespaces k = alLookup m₂.namespaces k) ∧
  (∀ k, alLookup m₁.agents k = alLookup m₂.agents k) ∧
  (∀ k, alLookup m₁.activities k = alLookup m₂.activities k) ∧
  (∀ k, alLookup m₁.entities k = alLookup m₂.entities k) ∧
  (∀ k, alLookup m₁.wasAssociatedWith k = alLookup m₂.wasAssociatedWith k) ∧
  (∀ k, alLookup m₁.wasAttributedTo k = alLookup m₂.wasAttributedTo k) ∧
  (∀ k, alLookup m₁.wasGeneratedBy k = alLookup m₂.wasGeneratedBy k) ∧
  (∀ k, alLookup m₁.usedRel k = alLookup m₂.usedRel k)

theorem alLookup_pair_swap {β : Type} (k₁ k₂ : String) (v₁ v₂ : β) (hne : k₁ ≠ k₂)
    (k : String) : alLookup [(k₁, v₁), (k₂, v₂)] k = alLookup [(k₂, v₂), (k₁, v₁)] k := by
  by_cases h₁ : k₁ = k <;> by_cases h₂ : k₂ = k
  · exact absurd (h₁.trans h₂.symm) hne
  · simp [alLookup, h₁, h₂]
  · simp [alLookup, h₁, h₂]
  · simp [alLookup, h₁, h₂]

/-- The two agents of the serialisation-order counterexample, created in
descending identifier order. -/
def orderOps : List ChronicleTransaction :=
  [.createNamespace cNs "testns" cUuid,
   .createAgent cNs "b" "chronicle:agent:b",
   .createAgent cNs "a" "chronicle:agent:a"]

/-- The same operations with the two agents swapped. -/
def orderOpsSwapped : List ChronicleTransaction :=
  [.createNamespace cNs "testns" cUuid,
   .createAgent cNs "a" "chronicle:agent:a",
   .createAgent cNs "b" "chronicle:agent:b"]

/-- The model reached by `orderOps`. -/
def orderModel : ProvModel :=
  ⟨[(cNs, ⟨cNs, cUuid, "testns"⟩)],
   [("chronicle:agent:b", ⟨"chronicle:agent:b", cNs, "b", none⟩),
    ("chronicle:agent:a", ⟨"chronicle:agent:a", cNs, "a", none⟩)],
   [], [], [], [], [], []⟩

/-- The model reached by `orderOpsSwapped`. -/
def orderModelSwapped : ProvModel :=
  ⟨[(cNs, ⟨cNs, cUuid, "testns"⟩)],
   [("chronicle:agent:a", ⟨"chronicle:agent:a", cNs, "a", none⟩),
    ("chronicle:agent:b", ⟨"chronicle:agent:b", cNs, "b", none⟩)],
   [], [], [], [], [], []⟩

/-- Kernel-reducible lexicographic (byte) order on strings, used to state
ascending-identifier order. -/
def charListLe : List Char → List Char → Bool
  | [], _ => true
  | _ :: _, [] => false
  | a :: as, b :: bs =>
    if a.toNat < b.toNat then true
    else if b.toNat < a.toNat then false
    else charListLe as bs

/-- String comparison via `charListLe`. -/
def strLe (a b : String) : Bool := charListLe a.data b.data

/-- Is a list of identifiers weakly ascending? -/
def strAscending : List String → Bool
  | [] => true
  | [_] => true
  | a :: b :: rest => strLe a b && strAscending (b :: rest)

/-- Counterexample to C6: a reachable model whose serialisation emits the
agent nodes in the order they entered the map — `…:b` before `…:a`, not
ascending identifier order — and a pair of models with identical resources
and relations (pointwise-equal maps) whose serialisations differ.  Nothing
in `to_json` sorts. -/
theorem toJson_order_counterexample :
    ProvModel.fromTx orderOps = some orderModel ∧
    ProvModel.fromTx orderOpsSwapped = some orderModelSwapped ∧
    orderModel.toJson.map LdNode.id
      = [cNs, "chronicle:agent:b", "chronicle:agent:a"] ∧
    strAscending (orderModel.toJson.map LdNode.id) = false ∧
    orderModel.Equiv orderModelSwapped ∧
    orderModel.toJson ≠ orderModelSwapped.toJson := by
  refine ⟨by decide, by decide, by decide, by decide, ?_, by decide⟩
  refine ⟨fun k => rfl, fun k => ?_, fun k => rfl, fun k => rfl, fun k => rfl,
    fun k => rfl, fun k => rfl, fun k => rfl⟩
  exact alLookup_pair_swap _ _ _ _ (by decide) k

/-- C6 (amended): `to_json` emits the nodes grouped by resource kind —
namespaces, then agents, then activities, then entities — each group in
its container's iteration order (insertion order in this embedding, an
unspecified hash order in the source); no sorting by identifier takes
place, so content-equal models need not serialise identically. -/
theorem toJson_node_order (m : ProvModel) :
    m.toJson.map LdNode.id =
      alKeys m.namespaces ++ alKeys m.agents ++ alKeys m.activities ++ alKeys m.entities := by
  simp only [ProvModel.toJson, alKeys, List.map_append, List.map_map]
  rfl

/-! ## Further association-list lemmas for the round-trip proof -/

theorem mem_alInsert {β : Type} {l : List (String × β)} {k : String} {v : β}
    {p : String × β} (h : p ∈ alInsert l k v) : p ∈ l ∨ p = (k, v) := by
  induction l with
  | nil => simpa [alInsert] using h
  | cons hd tl ih =>
    obtain ⟨k₀, v₀⟩ := hd
    by_cases hk : k₀ = k
    · subst hk
      simp only [alInsert, if_pos rfl] at h
      rcases List.mem_cons.mp h with h | h
      · exact Or.inr h
      · exact Or.inl (List.mem_cons_of_mem _ h)
    · simp only [alInsert, if_neg hk] at h
      rcases List.mem_cons.mp h with h | h
      · exact Or.inl (by simp [h])
      · rcases ih h with h | h
        · exact Or.inl (List.mem_cons_of_mem _ h)
        · exact Or.inr h

theorem alContains_alInsert_mono {β : Type} {l : List (String × β)} {k₁ : String}
    (h : alContains l k₁ = true) (k : String) (v : β) :
    alContains (alInsert l k v) k₁ = true := by
  induction l with
  | nil => simp [alContains, alLookup] at h
  | cons hd tl ih =>
    obtain ⟨k₀, v₀⟩ := hd
    by_cases hk : k₀ = k
    · subst hk
      simp only [alInsert, if_pos rfl]
      simp only [alContains, alLookup] at h ⊢
      split at h <;> split <;> simp_all
    · simp only [alInsert, if_neg hk]
      simp only [alContains, alLookup] at h ⊢
      by_cases hk₁ : k₀ = k₁
      · simp [hk₁]
      · simp only [if_neg hk₁] at h ⊢
        exact ih h

theorem alRemove_mem {β : Type} {l : List (String × β)} {k : String} {v : β}
    {rest : List (String × β)} (h : alRemove l k = some (v, rest)) : (k, v) ∈ l := by
  induction l generalizing rest with
  | nil => simp [alRemove] at h
  | cons hd tl ih =>
    obtain ⟨k₀, v₀⟩ := hd
    by_cases hk : k₀ = k
    · subst hk
      simp only [alRemove, if_pos rfl, if_true, Option.some_inj, Prod.mk.injEq] at h
      simp [h.1]
    · simp only [alRemove, if_neg hk] at h
      cases hr : alRemove tl k with
      | none => rw [hr] at h; cases h
      | some pr =>
        obtain ⟨pv, prest⟩ := pr
        rw [hr] at h
        simp only [Option.some_inj, Prod.mk.injEq] at h
        exact List.mem_cons_of_mem _ (ih (by rw [hr, h.1]))

theorem alRemove_mem_rest {β : Type} {l : List (String × β)} {k : String} {v : β}
    {rest : List (String × β)} (h : alRemove l k = some (v, rest)) {p : String × β}
    (hp : p ∈ rest) : p ∈ l := by
  induction l generalizing rest with
  | nil => simp [alRemove] at h
  | cons hd tl ih =>
    obtain ⟨k₀, v₀⟩ := hd
    by_cases hk : k₀ = k
    · subst hk
      simp only [alRemove, if_pos rfl, if_true, Option.some_inj, Prod.mk.injEq] at h
      exact List.mem_cons_of_mem _ (h.2 ▸ hp)
    · simp only [alRemove, if_neg hk] at h
      cases hr : alRemove tl k with
      | none => rw [hr] at h; cases h
      | some pr =>
        obtain ⟨pv, prest⟩ := pr
        rw [hr] at h
        simp only [Option.some_inj, Prod.mk.injEq] at h
        rw [← h.2] at hp
        rcases List.mem_cons.mp hp with hp | hp
        · simp [hp]
        · exact List.mem_cons_of_mem _ (ih (by rw [hr, h.1]) hp)

theorem alRemove_keys_sublist {β : Type} {l : List (String × β)} {k : String} {v : β}
    {rest : List (String × β)} (h : alRemove l k = some (v, rest)) :
    (rest.map Prod.fst).Sublist (l.map Prod.fst) := by
  induction l generalizing rest with
  | nil => simp [alRemove] at h
  | cons hd tl ih =>
    obtain ⟨k₀, v₀⟩ := hd
    by_cases hk : k₀ = k
    · subst hk
      simp only [alRemove, if_pos rfl, if_true, Option.some_inj, Prod.mk.injEq] at h
      rw [← h.2]
      exact (List.sublist_cons_self _ _)
    · simp only [alRemove, if_neg hk] at h
      cases hr : alRemove tl k with
      | none => rw [hr] at h; cases h
      | some pr =>
        obtain ⟨pv, prest⟩ := pr
        rw [hr] at h
        simp only [Option.some_inj, Prod.mk.injEq] at h
        rw [← h.2]
        exact List.Sublist.cons₂ _ (ih (by rw [hr, h.1]))

theorem alLookup_alRemove_other {β : Type} {l : List (String × β)} {k : String} {v : β}
    {rest : List (String × β)} (h : alRemove l k = some (v, rest)) {k₁ : String}
    (hne : k₁ ≠ k) : alLookup rest k₁ = alLookup l k₁ := by
  induction l generalizing rest with
  | nil => simp [alRemove] at h
  | cons hd tl ih =>
    obtain ⟨k₀, v₀⟩ := hd
    by_cases hk : k₀ = k
    · subst hk
      simp only [alRemove, if_pos rfl, if_true, Option.some_inj, Prod.mk.injEq] at h
      rw [← h.2]
      simp only [alLookup]
      rw [if_neg fun hc => hne hc.symm]
    · simp only [alRemove, if_neg hk] at h
      cases hr : alRemove tl k with
      | none => rw [hr] at h; cases h
      | some pr =>
        obtain ⟨pv, prest⟩ := pr
        rw [hr] at h
        simp only [Option.some_inj, Prod.mk.injEq] at h
        rw [← h.2]
        by_cases hk₁ : k₀ = k₁
        · simp [alLookup, hk₁]
        · simp only [alLookup, if_neg hk₁]
          exact ih (by rw [hr, h.1])

theorem setInsert_ne_nil (s : List String) (v : String) : setInsert s v ≠ [] := by
  by_cases h : v ∈ s
  · rw [setInsert_eq_of_mem h]
    exact List.ne_nil_of_mem h
  · simp [setInsert, h]

theorem setInsert_nodup {s : List String} (h : s.Nodup) (v : String) :
    (setInsert s v).Nodup := by
  by_cases hv : v ∈ s
  · rwa [setInsert_eq_of_mem hv]
  · simp [setInsert, hv, List.nodup_append, h]

theorem alLookup_some_mem {β : Type} {l : List (String × β)} {k : String} {v : β}
    (h : alLookup l k = some v) : (k, v) ∈ l := by
  induction l with
  | nil => simp [alLookup] at h
  | cons hd tl ih =>
    obtain ⟨k₀, v₀⟩ := hd
    by_cases hk : k₀ = k
    · subst hk
      simp only [alLookup, if_pos rfl, if_true, Option.some_inj] at h
      simp [h]
    · simp only [alLookup, if_neg hk] at h
      exact List.mem_cons_of_mem _ (ih h)

theorem mem_alUpdate {β : Type} {l : List (String × β)} {k : String} {f : β → β}
    {p : String × β} (h : p ∈ alUpdate l k f) :
    p ∈ l ∨ ∃ v, (k, v) ∈ l ∧ p = (k, f v) := by
  induction l with
  | nil => simp [alUpdate] at h
  | cons hd tl ih =>
    obtain ⟨k₀, v₀⟩ := hd
    by_cases hk : k₀ = k
    · subst hk
      simp only [alUpdate, if_pos rfl] at h
      rcases List.mem_cons.mp h with h | h
      · exact Or.inr ⟨v₀, List.mem_cons_self _ _, h⟩
      · exact Or.inl (List.mem_cons_of_mem _ h)
    · simp only [alUpdate, if_neg hk] at h
      rcases List.mem_cons.mp h with h | h
      · exact Or.inl (by simp [h])
      · rcases ih h with h | ⟨v, hv, hp⟩
        · exact Or.inl (List.mem_cons_of_mem _ h)
        · exact Or.inr ⟨v, List.mem_cons_of_mem _ hv, hp⟩

theorem alUpdate_map_fst {β : Type} (l : List (String × β)) (k : String) (f : β → β) :
    (alUpdate l k f).map Prod.fst = l.map Prod.fst := by
  induction l with
  | nil => simp [alUpdate]
  | cons hd tl ih =>
    obtain ⟨k₀, v₀⟩ := hd
    by_cases hk : k₀ = k <;> simp [alUpdate, hk, ih]

theorem Entity.sign_id (e : Entity) (s : String) (l : Option String) (t : Int) :
    (e.sign s l t).id = e.id := by cases e <;> rfl

theorem Entity.sign_namespaceid (e : Entity) (s : String) (l : Option String) (t : Int) :
    (e.sign s l t).namespaceid = e.namespaceid := by cases e <;> rfl

/-- The reachability invariant of `ProvModel` used by the round-trip
theorem: distinct map keys (`HashMap`), every resource consistent with its
key, every referenced namespace present and derivable from its identifier,
`was_attributed_to` never populated, and every relation entry keyed by an
existing activity or entity with a non-empty duplicate-free set. -/
structure ModelInv (m : ProvModel) : Prop where
  nsKeys : (m.namespaces.map Prod.fst).Nodup
  agKeys : (m.agents.map Prod.fst).Nodup
  acKeys : (m.activities.map Prod.fst).Nodup
  enKeys : (m.entities.map Prod.fst).Nodup
  nsVal : ∀ k ns, (k, ns) ∈ m.namespaces → ns.id = k ∧ nsDecompose k = some (ns.name, ns.uuid)
  agVal : ∀ k a, (k, a) ∈ m.agents → a.id = k ∧ alContains m.namespaces a.namespaceid = true
  acVal : ∀ k a, (k, a) ∈ m.activities → a.id = k ∧ alContains m.namespaces a.namespaceid = true
  enVal : ∀ k e, (k, e) ∈ m.entities → e.id = k ∧ alContains m.namespaces e.namespaceid = true
  attEmpty : m.wasAttributedTo = []
  wawVal : ∀ k s, (k, s) ∈ m.wasAssociatedWith →
    alContains m.activities k = true ∧ s ≠ [] ∧ s.Nodup
  usedVal : ∀ k s, (k, s) ∈ m.usedRel →
    alContains m.activities k = true ∧ s ≠ [] ∧ s.Nodup
  wgbVal : ∀ k s, (k, s) ∈ m.wasGeneratedBy →
    alContains m.entities k = true ∧ s ≠ [] ∧ s.Nodup
  wawKeys : (m.wasAssociatedWith.map Prod.fst).Nodup
  usedKeys : (m.usedRel.map Prod.fst).Nodup
  wgbKeys : (m.wasGeneratedBy.map Prod.fst).Nodup

theorem modelInv_empty : ModelInv {} := by
  constructor <;> simp

/-- `namespace_context` preserves the invariant. -/
theorem modelInv_nsInsert {m : ProvModel} {ns nsname uuid : String}
    (hInv : ModelInv m) (hns : nsDecompose ns = some (nsname, uuid)) :
    ModelInv { m with namespaces := alInsert m.namespaces ns ⟨ns, uuid, nsname⟩ } := by
  refine ⟨alInsert_keys_nodup hInv.nsKeys, hInv.agKeys, hInv.acKeys, hInv.enKeys,
    ?_, ?_, ?_, ?_, hInv.attEmpty, hInv.wawVal, hInv.usedVal, hInv.wgbVal,
    hInv.wawKeys, hInv.usedKeys, hInv.wgbKeys⟩
  · intro k v hv
    rcases mem_alInsert hv with hv | hv
    · exact hInv.nsVal k v hv
    · have hk : k = ns := congrArg Prod.fst hv
      have hvv : v = ⟨ns, uuid, nsname⟩ := congrArg Prod.snd hv
      refine ⟨by rw [hvv]; exact hk.symm, ?_⟩
      rw [hk, hvv]
      exact hns
  · intro k a ha
    exact ⟨(hInv.agVal k a ha).1, alContains_alInsert_mono (hInv.agVal k a ha).2 _ _⟩
  · intro k a ha
    exact ⟨(hInv.acVal k a ha).1, alContains_alInsert_mono (hInv.acVal k a ha).2 _ _⟩
  · intro k e he
    exact ⟨(hInv.enVal k e he).1, alContains_alInsert_mono (hInv.enVal k e he).2 _ _⟩

/-- Inserting an agent stub (or full agent) whose namespace is registered
preserves the invariant. -/
theorem modelInv_agInsert {m : ProvModel} {id ns nm : String} {pk : Option String}
    (hInv : ModelInv m) (hns : alContains m.namespaces ns = true) :
    ModelInv { m with agents := alInsert m.agents id ⟨id, ns, nm, pk⟩ } := by
  refine ⟨hInv.nsKeys, alInsert_keys_nodup hInv.agKeys, hInv.acKeys, hInv.enKeys,
    hInv.nsVal, ?_, hInv.acVal, hInv.enVal, hInv.attEmpty, hInv.wawVal, hInv.usedVal,
    hInv.wgbVal, hInv.wawKeys, hInv.usedKeys, hInv.wgbKeys⟩
  intro k a ha
  rcases mem_alInsert ha with ha | ha
  · exact hInv.agVal k a ha
  · have hk : k = id := congrArg Prod.fst ha
    have hvv : a = ⟨id, ns, nm, pk⟩ := congrArg Prod.snd ha
    exact ⟨by rw [hvv]; exact hk.symm, by rw [hvv]; exact hns⟩

/-- Inserting an activity whose namespace is registered preserves the
invariant. -/
theorem modelInv_acInsert {m : ProvModel} {id ns nm : String} {st en : Option Int}
    (hInv : ModelInv m) (hns : alContains m.namespaces ns = true) :
    ModelInv { m with activities := alInsert m.activities id ⟨id, ns, nm, st, en⟩ } := by
  refine ⟨hInv.nsKeys, hInv.agKeys, alInsert_keys_nodup hInv.acKeys, hInv.enKeys,
    hInv.nsVal, hInv.agVal, ?_, hInv.enVal, hInv.attEmpty, ?_, ?_,
    hInv.wgbVal, hInv.wawKeys, hInv.usedKeys, hInv.wgbKeys⟩
  · intro k a ha
    rcases mem_alInsert ha with ha | ha
    · exact hInv.acVal k a ha
    · have hk : k = id := congrArg Prod.fst ha
      have hvv : a = ⟨id, ns, nm, st, en⟩ := congrArg Prod.snd ha
      exact ⟨by rw [hvv]; exact hk.symm, by rw [hvv]; exact hns⟩
  · intro k s hs
    obtain ⟨h₁, h₂, h₃⟩ := hInv.wawVal k s hs
    exact ⟨alContains_alInsert_mono h₁ _ _, h₂, h₃⟩
  · intro k s hs
    obtain ⟨h₁, h₂, h₃⟩ := hInv.usedVal k s hs
    exact ⟨alContains_alInsert_mono h₁ _ _, h₂, h₃⟩

/-- Inserting an unsigned entity stub whose namespace is registered
preserves the invariant. -/
theorem modelInv_enInsert {m : ProvModel} {id ns nm : String}
    (hInv : ModelInv m) (hns : alContains m.namespaces ns = true) :
    ModelInv { m with entities := alInsert m.entities id (Entity.unsigned id ns nm) } := by
  refine ⟨hInv.nsKeys, hInv.agKeys, hInv.acKeys, alInsert_keys_nodup hInv.enKeys,
    hInv.nsVal, hInv.agVal, hInv.acVal, ?_, hInv.attEmpty, hInv.wawVal, hInv.usedVal,
    ?_, hInv.wawKeys, hInv.usedKeys, hInv.wgbKeys⟩
  · intro k v hv
    rcases mem_alInsert hv with hv | hv
    · exact hInv.enVal k v hv
    · have hk : k = id := congrArg Prod.fst hv
      have hvv : v = Entity.unsigned id ns nm := congrArg Prod.snd hv
      exact ⟨by rw [hvv, hk]; rfl, by rw [hvv]; exact hns⟩
  · intro k s hs
    obtain ⟨h₁, h₂, h₃⟩ := hInv.wgbVal k s hs
    exact ⟨alContains_alInsert_mono h₁ _ _, h₂, h₃⟩

/-- The set stored under a relation key is duplicate-free. -/
theorem modelInv_rel_set_nodup {r : List (String × List String)}
    (hval : ∀ k s, (k, s) ∈ r → True ∧ s ≠ [] ∧ s.Nodup) :
    ∀ k, ((alLookup r k).getD []).Nodup := by
  intro k
  cases hl : alLookup r k with
  | none => simp
  | some s => exact (hval k s (alLookup_some_mem hl)).2.2

/-- A `relInsert` on the association relation keyed by a present activity
preserves the invariant. -/
theorem modelInv_wawInsert {m : ProvModel} {k v : String}
    (hInv : ModelInv m) (hact : alContains m.activities k = true) :
    ModelInv { m with wasAssociatedWith := relInsert m.wasAssociatedWith k v } := by
  refine ⟨hInv.nsKeys, hInv.agKeys, hInv.acKeys, hInv.enKeys, hInv.nsVal, hInv.agVal,
    hInv.acVal, hInv.enVal, hInv.attEmpty, ?_, hInv.usedVal, hInv.wgbVal,
    alInsert_keys_nodup hInv.wawKeys, hInv.usedKeys, hInv.wgbKeys⟩
  intro k₁ s hs
  rcases mem_alInsert hs with hs | hs
  · exact hInv.wawVal k₁ s hs
  · have hk : k₁ = k := congrArg Prod.fst hs
    have hvv : s = setInsert ((alLookup m.wasAssociatedWith k).getD []) v :=
      congrArg Prod.snd hs
    subst hk
    refine ⟨hact, by rw [hvv]; exact setInsert_ne_nil _ _, ?_⟩
    rw [hvv]
    refine setInsert_nodup ?_ v
    exact modelInv_rel_set_nodup (fun a b hab => ⟨trivial, (hInv.wawVal a b hab).2⟩) _

/-- A `relInsert` on the used relation keyed by a present activity
preserves the invariant. -/
theorem modelInv_usedInsert {m : ProvModel} {k v : String}
    (hInv : ModelInv m) (hact : alContains m.activities k = true) :
    ModelInv { m with usedRel := relInsert m.usedRel k v } := by
  refine ⟨hInv.nsKeys, hInv.agKeys, hInv.acKeys, hInv.enKeys, hInv.nsVal, hInv.agVal,
    hInv.acVal, hInv.enVal, hInv.attEmpty, hInv.wawVal, ?_, hInv.wgbVal,
    hInv.wawKeys, alInsert_keys_nodup hInv.usedKeys, hInv.wgbKeys⟩
  intro k₁ s hs
  rcases mem_alInsert hs with hs | hs
  · exact hInv.usedVal k₁ s hs
  · have hk : k₁ = k := congrArg Prod.fst hs
    have hvv : s = setInsert ((alLookup m.usedRel k).getD []) v := congrArg Prod.snd hs
    subst hk
    refine ⟨hact, by rw [hvv]; exact setInsert_ne_nil _ _, ?_⟩
    rw [hvv]
    refine setInsert_nodup ?_ v
    exact modelInv_rel_set_nodup (fun a b hab => ⟨trivial, (hInv.usedVal a b hab).2⟩) _

/-- A `relInsert` on the generation relation keyed by a present entity
preserves the invariant. -/
theorem modelInv_wgbInsert {m : ProvModel} {k v : String}
    (hInv : ModelInv m) (hent : alContains m.entities k = true) :
    ModelInv { m with wasGeneratedBy := relInsert m.wasGeneratedBy k v } := by
  refine ⟨hInv.nsKeys, hInv.agKeys, hInv.acKeys, hInv.enKeys, hInv.nsVal, hInv.agVal,
    hInv.acVal, hInv.enVal, hInv.attEmpty, hInv.wawVal, hInv.usedVal, ?_,
    hInv.wawKeys, hInv.usedKeys, alInsert_keys_nodup hInv.wgbKeys⟩
  intro k₁ s hs
  rcases mem_alInsert hs with hs | hs
  · exact hInv.wgbVal k₁ s hs
  · have hk : k₁ = k := congrArg Prod.fst hs
    have hvv : s = setInsert ((alLookup m.wasGeneratedBy k).getD []) v :=
      congrArg Prod.snd hs
    subst hk
    refine ⟨hent, by rw [hvv]; exact setInsert_ne_nil _ _, ?_⟩
    rw [hvv]
    refine setInsert_nodup ?_ v
    exact modelInv_rel_set_nodup (fun a b hab => ⟨trivial, (hInv.wgbVal a b hab).2⟩) _

/-- The public-key update of `RegisterKey` preserves the invariant. -/
theorem modelInv_agUpdate {m : ProvModel} {id pk : String}
    (hInv : ModelInv m) :
    ModelInv { m with agents := alUpdate m.agents id (fun a => { a with publickey := some pk }) } := by
  refine ⟨hInv.nsKeys, ?_, hInv.acKeys, hInv.enKeys, hInv.nsVal, ?_, hInv.acVal,
    hInv.enVal, hInv.attEmpty, hInv.wawVal, hInv.usedVal, hInv.wgbVal,
    hInv.wawKeys, hInv.usedKeys, hInv.wgbKeys⟩
  · rw [alUpdate_map_fst]
    exact hInv.agKeys
  · intro k a ha
    rcases mem_alUpdate ha with ha | ⟨v, hv, hp⟩
    · exact hInv.agVal k a ha
    · have hk : k = id := congrArg Prod.fst hp
      have hvv : a = { v with publickey := some pk } := congrArg Prod.snd hp
      obtain ⟨h₁, h₂⟩ := hInv.agVal id v (hk ▸ hv)
      exact ⟨by rw [hvv]; simpa [hk] using h₁, by rw [hvv]; exact h₂⟩

/-- The remove-and-reinsert of `EntityAttach` preserves the invariant. -/
theorem modelInv_enSign {m : ProvModel} {id sig : String} {loc : Option String} {t : Int}
    {u : Entity} {rest : List (String × Entity)}
    (hInv : ModelInv m) (hrem : alRemove m.entities id = some (u, rest)) :
    ModelInv { m with entities := alInsert rest id (u.sign sig loc t) } := by
  have hmem := alRemove_mem hrem
  obtain ⟨hid, hns⟩ := hInv.enVal id u hmem
  have hrestnd : (rest.map Prod.fst).Nodup :=
    (alRemove_keys_sublist hrem).nodup hInv.enKeys
  refine ⟨hInv.nsKeys, hInv.agKeys, hInv.acKeys, alInsert_keys_nodup hrestnd,
    hInv.nsVal, hInv.agVal, hInv.acVal, ?_, hInv.attEmpty, hInv.wawVal, hInv.usedVal,
    ?_, hInv.wawKeys, hInv.usedKeys, hInv.wgbKeys⟩
  · intro k v hv
    rcases mem_alInsert hv with hv | hv
    · exact hInv.enVal k v (alRemove_mem_rest hrem hv)
    · have hk : k = id := congrArg Prod.fst hv
      have hvv : v = u.sign sig loc t := congrArg Prod.snd hv
      refine ⟨?_, ?_⟩
      · rw [hvv, Entity.sign_id, hid, hk]
      · rw [hvv, Entity.sign_namespaceid]
        exact hns
  · intro k s hs
    obtain ⟨h₁, h₂, h₃⟩ := hInv.wgbVal k s hs
    refine ⟨?_, h₂, h₃⟩
    by_cases hk : k = id
    · subst hk
      exact alContains_alInsert_self _ _ _
    · obtain ⟨v, hv⟩ := alLookup_of_contains h₁
      have : alLookup rest k = some v := by
        rw [alLookup_alRemove_other hrem hk]
        exact hv
      exact alContains_alInsert_mono (alContains_of_lookup this) _ _

/-- Well-formedness of an operation, needed for the round trip: a
`CreateNamespace` must carry the name and UUID that its identifier
decomposes to (other operations derive these from the identifier and are
always consistent). -/
def WfCreateNs : ChronicleTransaction → Prop
  | .createNamespace id name uuid => nsDecompose id = some (name, uuid)
  | _ => True

theorem modelInv_apply {m m' : ProvModel} {tx : ChronicleTransaction}
    (hInv : ModelInv m) (hwf : WfCreateNs tx) (h : m.apply tx = some m') :
    ModelInv m' := by
  cases tx with
  | createNamespace id name uuid =>
    simp only [ProvModel.apply, Option.some_inj] at h
    subst h
    exact modelInv_nsInsert hInv hwf
  | createAgent ns name id =>
    cases hns : nsDecompose ns with
    | none => simp [ProvModel.apply, ProvModel.namespaceContext, hns] at h
    | some p =>
      obtain ⟨nsname, uuid⟩ := p
      simp only [ProvModel.apply, namespaceContext_of_decompose hns, Option.bind_eq_bind,
        Option.some_bind, Option.pure_def, Option.some_inj] at h
      subst h
      exact modelInv_agInsert (modelInv_nsInsert hInv hns) (alContains_alInsert_self _ _ _)
  | registerKey ns id publickey name =>
    cases hns : nsDecompose ns with
    | none => simp [ProvModel.apply, ProvModel.namespaceContext, hns] at h
    | some p =>
      obtain ⟨nsname, uuid⟩ := p
      simp only [ProvModel.apply, namespaceContext_of_decompose hns, Option.bind_eq_bind,
        Option.some_bind, Option.pure_def, Option.some_inj] at h
      by_cases hc : alContains m.agents id = true
      · simp only [hc, if_true] at h
        subst h
        exact modelInv_agUpdate (modelInv_nsInsert hInv hns)
      · simp only [hc, if_false, Bool.false_eq_true] at h
        subst h
        exact modelInv_agUpdate (modelInv_agInsert (modelInv_nsInsert hInv hns)
          (alContains_alInsert_self _ _ _))
  | createActivity ns id name =>
    cases hns : nsDecompose ns with
    | none => simp [ProvModel.apply, ProvModel.namespaceContext, hns] at h
    | some p =>
      obtain ⟨nsname, uuid⟩ := p
      simp only [ProvModel.apply, namespaceContext_of_decompose hns, Option.bind_eq_bind,
        Option.some_bind, Option.pure_def, Option.some_inj] at h
      by_cases hc : alContains m.activities id = true
      · simp only [hc, if_true, Option.some_inj] at h
        subst h
        exact modelInv_nsInsert hInv hns
      · simp only [hc, if_false, Bool.false_eq_true, Option.some_inj] at h
        subst h
        exact modelInv_acInsert (modelInv_nsInsert hInv hns) (alContains_alInsert_self _ _ _)
  | startActivity ns id agent time =>
    cases hns : nsDecompose ns with
    | none => simp [ProvModel.apply, ProvModel.namespaceContext, hns] at h
    | some p =>
      obtain ⟨nsname, uuid⟩ := p
      simp only [ProvModel.apply, namespaceContext_of_decompose hns, Option.bind_eq_bind,
        Option.some_bind, Option.pure_def, Option.some_inj] at h
      by_cases hca : alContains m.activities id = true <;>
        by_cases hcg : alContains m.agents agent = true
      · simp only [hca, hcg, if_true, Option.some_bind, Option.some_inj] at h
        subst h
        exact modelInv_wawInsert (modelInv_nsInsert hInv hns) hca
      · simp only [hca, hcg, if_true, if_false, Bool.false_eq_true, Option.some_bind] at h
        cases hng : namePartOf agent with
        | none => rw [hng] at h; simp at h
        | some gname =>
          rw [hng] at h
          simp only [Option.some_bind, Option.some_inj] at h
          subst h
          exact modelInv_wawInsert (modelInv_agInsert (modelInv_nsInsert hInv hns)
            (alContains_alInsert_self _ _ _)) hca
      · simp only [hca, hcg, if_true, if_false, Bool.false_eq_true, Option.some_bind] at h
        cases hnp : namePartOf id with
        | none => rw [hnp] at h; simp at h
        | some aname =>
          rw [hnp] at h
          simp only [Option.some_bind, Option.some_inj] at h
          subst h
          exact modelInv_wawInsert (modelInv_acInsert (modelInv_nsInsert hInv hns)
            (alContains_alInsert_self _ _ _)) (alContains_alInsert_self _ _ _)
      · simp only [hca, hcg, if_false, Bool.false_eq_true, Option.some_bind] at h
        cases hnp : namePartOf id with
        | none => rw [hnp] at h; simp at h
        | some aname =>
          rw [hnp] at h
          simp only [Option.some_bind] at h
          cases hng : namePartOf agent with
          | none => rw [hng] at h; simp at h
          | some gname =>
            rw [hng] at h
            simp only [Option.some_bind, Option.some_inj] at h
            subst h
            exact modelInv_wawInsert (modelInv_agInsert (modelInv_acInsert
              (modelInv_nsInsert hInv hns) (alContains_alInsert_self _ _ _))
              (alContains_alInsert_self _ _ _)) (alContains_alInsert_self _ _ _)
  | endActivity ns id agent time =>
    cases hns : nsDecompose ns with
    | none => simp [ProvModel.apply, ProvModel.namespaceContext, hns] at h
    | some p =>
      obtain ⟨nsname, uuid⟩ := p
      simp only [ProvModel.apply, namespaceContext_of_decompose hns, Option.bind_eq_bind,
        Option.some_bind, Option.pure_def, Option.some_inj] at h
      by_cases hca : alContains m.activities id = true <;>
        by_cases hcg : alContains m.agents agent = true
      · simp only [hca, hcg, if_true, Option.some_bind, Option.some_inj] at h
        subst h
        exact modelInv_wawInsert (modelInv_nsInsert hInv hns) hca
      · simp only [hca, hcg, if_true, if_false, Bool.false_eq_true, Option.some_bind] at h
        cases hng : namePartOf agent with
        | none => rw [hng] at h; simp at h
        | some gname =>
          rw [hng] at h
          simp only [Option.some_bind, Option.some_inj] at h
          subst h
          exact modelInv_wawInsert (modelInv_agInsert (modelInv_nsInsert hInv hns)
            (alContains_alInsert_self _ _ _)) hca
      · simp only [hca, hcg, if_true, if_false, Bool.false_eq_true, Option.some_bind] at h
        cases hnp : namePartOf id with
        | none => rw [hnp] at h; simp at h
        | some aname =>
          rw [hnp] at h
          simp only [Option.some_bind, Option.some_inj] at h
          subst h
          exact modelInv_wawInsert (modelInv_acInsert (modelInv_nsInsert hInv hns)
            (alContains_alInsert_self _ _ _)) (alContains_alInsert_self _ _ _)
      · simp only [hca, hcg, if_false, Bool.false_eq_true, Option.some_bind] at h
        cases hnp : namePartOf id with
        | none => rw [hnp] at h; simp at h
        | some aname =>
          rw [hnp] at h
          simp only [Option.some_bind] at h
          cases hng : namePartOf agent with
          | none => rw [hng] at h; simp at h
          | some gname =>
            rw [hng] at h
            simp only [Option.some_bind, Option.some_inj] at h
            subst h
            exact modelInv_wawInsert (modelInv_agInsert (modelInv_acInsert
              (modelInv_nsInsert hInv hns) (alContains_alInsert_self _ _ _))
              (alContains_alInsert_self _ _ _)) (alContains_alInsert_self _ _ _)
  | activityUses ns id activity =>
    cases hns : nsDecompose ns with
    | none => simp [ProvModel.apply, ProvModel.namespaceContext, hns] at h
    | some p =>
      obtain ⟨nsname, uuid⟩ := p
      simp only [ProvModel.apply, namespaceContext_of_decompose hns, Option.bind_eq_bind,
        Option.some_bind, Option.pure_def, Option.some_inj] at h
      by_cases hca : alContains m.activities activity = true <;>
        by_cases hce : alContains m.entities id = true
      · simp only [hca, hce, if_true, Option.some_bind, Option.some_inj] at h
        subst h
        exact modelInv_usedInsert (modelInv_nsInsert hInv hns) hca
      · simp only [hca, hce, if_true, if_false, Bool.false_eq_true, Option.some_bind] at h
        cases hne : namePartOf id with
        | none => rw [hne] at h; simp at h
        | some ename =>
          rw [hne] at h
          simp only [Option.some_bind, Option.some_inj] at h
          subst h
          exact modelInv_usedInsert (modelInv_enInsert (modelInv_nsInsert hInv hns)
            (alContains_alInsert_self _ _ _)) hca
      · simp only [hca, hce, if_true, if_false, Bool.false_eq_true, Option.some_bind] at h
        cases hnp : namePartOf activity with
        | none => rw [hnp] at h; simp at h
        | some aname =>
          rw [hnp] at h
          simp only [Option.some_bind, Option.some_inj] at h
          subst h
          exact modelInv_usedInsert (modelInv_acInsert (modelInv_nsInsert hInv hns)
            (alContains_alInsert_self _ _ _)) (alContains_alInsert_self _ _ _)
      · simp only [hca, hce, if_false, Bool.false_eq_true, Option.some_bind] at h
        cases hnp : namePartOf activity with
        | none => rw [hnp] at h; simp at h
        | some aname =>
          rw [hnp] at h
          simp only [Option.some_bind] at h
          cases hne : namePartOf id with
          | none => rw [hne] at h; simp at h
          | some ename =>
            rw [hne] at h
            simp only [Option.some_bind, Option.some_inj] at h
            subst h
            exact modelInv_usedInsert (modelInv_enInsert (modelInv_acInsert
              (modelInv_nsInsert hInv hns) (alContains_alInsert_self _ _ _))
              (alContains_alInsert_self _ _ _)) (alContains_alInsert_self _ _ _)
  | generateEntity ns id activity =>
    cases hns : nsDecompose ns with
    | none => simp [ProvModel.apply, ProvModel.namespaceContext, hns] at h
    | some p =>
      obtain ⟨nsname, uuid⟩ := p
      simp only [ProvModel.apply, namespaceContext_of_decompose hns, Option.bind_eq_bind,
        Option.some_bind, Option.pure_def, Option.some_inj] at h
      by_cases hca : alContains m.activities activity = true <;>
        by_cases hce : alContains m.entities id = true
      · simp only [hca, hce, if_true, Option.some_bind, Option.some_inj] at h
        subst h
        exact modelInv_wgbInsert (modelInv_nsInsert hInv hns) hce
      · simp only [hca, hce, if_true, if_false, Bool.false_eq_true, Option.some_bind] at h
        cases hne : namePartOf id with
        | none => rw [hne] at h; simp at h
        | some ename =>
          rw [hne] at h
          simp only [Option.some_bind, Option.some_inj] at h
          subst h
          exact modelInv_wgbInsert (modelInv_enInsert (modelInv_nsInsert hInv hns)
            (alContains_alInsert_self _ _ _)) (alContains_alInsert_self _ _ _)
      · simp only [hca, hce, if_true, if_false, Bool.false_eq_true, Option.some_bind] at h
        cases hnp : namePartOf activity with
        | none => rw [hnp] at h; simp at h
        | some aname =>
          rw [hnp] at h
          simp only [Option.some_bind, Option.some_inj] at h
          subst h
          exact modelInv_wgbInsert (modelInv_acInsert (modelInv_nsInsert hInv hns)
            (alContains_alInsert_self _ _ _)) hce
      · simp only [hca, hce, if_false, Bool.false_eq_true, Option.some_bind] at h
        cases hnp : namePartOf activity with
        | none => rw [hnp] at h; simp at h
        | some aname =>
          rw [hnp] at h
          simp only [Option.some_bind] at h
          cases hne : namePartOf id with
          | none => rw [hne] at h; simp at h
          | some ename =>
            rw [hne] at h
            simp only [Option.some_bind, Option.some_inj] at h
            subst h
            exact modelInv_wgbInsert (modelInv_enInsert (modelInv_acInsert
              (modelInv_nsInsert hInv hns) (alContains_alInsert_self _ _ _))
              (alContains_alInsert_self _ _ _)) (alContains_alInsert_self _ _ _)
  | entityAttach ns id agent signature locator signatureTime =>
    cases hns : nsDecompose ns with
    | none => simp [ProvModel.apply, ProvModel.namespaceContext, hns] at h
    | some p =>
      obtain ⟨nsname, uuid⟩ := p
      simp only [ProvModel.apply, namespaceContext_of_decompose hns, Option.bind_eq_bind,
        Option.some_bind, Option.pure_def, Option.some_inj] at h
      by_cases hce : alContains m.entities id = true <;>
        by_cases hcg : alContains m.agents agent = true
      · simp only [hce, hcg, if_true, Option.some_bind] at h
        cases hrem : alRemove m.entities id with
        | none => rw [hrem] at h; simp at h
        | some pr =>
          obtain ⟨u, rest⟩ := pr
          rw [hrem] at h
          simp only [Option.pure_def, Option.some_inj] at h
          subst h
          exact modelInv_enSign (modelInv_nsInsert hInv hns) hrem
      · simp only [hce, hcg, if_true, if_false, Bool.false_eq_true, Option.some_bind] at h
        cases hng : namePartOf agent with
        | none => rw [hng] at h; simp at h
        | some gname =>
          rw [hng] at h
          simp only [Option.some_bind] at h
          cases hrem : alRemove m.entities id with
          | none => rw [hrem] at h; simp at h
          | some pr =>
            obtain ⟨u, rest⟩ := pr
            rw [hrem] at h
            simp only [Option.pure_def, Option.some_inj] at h
            subst h
            exact modelInv_enSign (modelInv_agInsert (modelInv_nsInsert hInv hns)
              (alContains_alInsert_self _ _ _)) hrem
      · simp only [hce, hcg, if_true, if_false, Bool.false_eq_true, Option.some_bind] at h
        cases hne : namePartOf id with
        | none => rw [hne] at h; simp at h
        | some ename =>
          rw [hne] at h
          simp only [Option.some_bind] at h
          cases hrem : alRemove (alInsert m.entities id (Entity.unsigned id ns ename)) id with
          | none => rw [hrem] at h; simp at h
          | some pr =>
            obtain ⟨u, rest⟩ := pr
            rw [hrem] at h
            simp only [Option.pure_def, Option.some_inj] at h
            subst h
            exact modelInv_enSign (modelInv_enInsert (modelInv_nsInsert hInv hns)
              (alContains_alInsert_self _ _ _)) hrem
      · simp only [hce, hcg, if_false, Bool.false_eq_true, Option.some_bind] at h
        cases hne : namePartOf id with
        | none => rw [hne] at h; simp at h
        | some ename =>
          rw [hne] at h
          simp only [Option.some_bind] at h
          cases hng : namePartOf agent with
          | none => rw [hng] at h; simp at h
          | some gname =>
            rw [hng] at h
            simp only [Option.some_bind] at h
            cases hrem : alRemove (alInsert m.entities id (Entity.unsigned id ns ename)) id with
            | none => rw [hrem] at h; simp at h
            | some pr =>
              obtain ⟨u, rest⟩ := pr
              rw [hrem] at h
              simp only [Option.pure_def, Option.some_inj] at h
              subst h
              exact modelInv_enSign (modelInv_agInsert (modelInv_enInsert
                (modelInv_nsInsert hInv hns) (alContains_alInsert_self _ _ _))
                (alContains_alInsert_self _ _ _)) hrem

/-! ## Decoding the emitted document, phase by phase -/

theorem applyJsonLd_append (m : ProvModel) (l₁ l₂ : List LdNode) :
    ProvModel.applyJsonLd m (l₁ ++ l₂)
      = (ProvModel.applyJsonLd m l₁).bind (fun m₁ => ProvModel.applyJsonLd m₁ l₂) := by
  induction l₁ generalizing m with
  | nil => simp [ProvModel.applyJsonLd]
  | cons n rest ih =>
    simp only [List.cons_append, ProvModel.applyJsonLd, List.foldlM_cons] at ih ⊢
    cases h : applyNode m n with
    | none => simp
    | some m₁ => simp [ih]

theorem propIds_map_vid (l : List String) : propIds (.arr (l.map LdValue.vid)) = l := by
  induction l with
  | nil => rfl
  | cons hd tl ih => simp [propIds, List.filterMap_cons] at ih ⊢; exact ih

/-- A namespace eta helper. -/
theorem namespace_eta {k : String} {v : Namespace} (hid : v.id = k) :
    (⟨k, v.uuid, v.name⟩ : Namespace) = v := by
  rw [← hid]

/-- Fold a list of bindings into an association list by repeated insert. -/
def alInsertAll {β : Type} (l : List (String × β)) (c : List (String × β)) :
    List (String × β) :=
  l.foldl (fun c kv => alInsert c kv.1 kv.2) c

theorem alInsertAll_nil {β : Type} (c : List (String × β)) : alInsertAll [] c = c := rfl

theorem alInsertAll_cons {β : Type} (kv : String × β) (l : List (String × β))
    (c : List (String × β)) :
    alInsertAll (kv :: l) c = alInsertAll l (alInsert c kv.1 kv.2) := rfl

theorem nsTy_ne_ag : (chronicleNamespaceType = provAgentType) = False := by
  simp +decide [chronicleNamespaceType, provAgentType]

theorem nsTy_ne_ac : (chronicleNamespaceType = provActivityType) = False := by
  simp +decide [chronicleNamespaceType, provActivityType]

theorem nsTy_ne_en : (chronicleNamespaceType = provEntityType) = False := by
  simp +decide [chronicleNamespaceType, provEntityType]

theorem agTy_ne_ns : (provAgentType = chronicleNamespaceType) = False := by
  simp +decide [chronicleNamespaceType, provAgentType]

theorem acTy_ne_ns : (provActivityType = chronicleNamespaceType) = False := by
  simp +decide [chronicleNamespaceType, provActivityType]

theorem acTy_ne_ag : (provActivityType = provAgentType) = False := by
  simp +decide [provActivityType, provAgentType]

theorem enTy_ne_ns : (provEntityType = chronicleNamespaceType) = False := by
  simp +decide [chronicleNamespaceType, provEntityType]

theorem enTy_ne_ag : (provEntityType = provAgentType) = False := by
  simp +decide [provEntityType, provAgentType]

theorem enTy_ne_ac : (provEntityType = provActivityType) = False := by
  simp +decide [provEntityType, provActivityType]

theorem applyJsonLd_nsNodes (nsl : List (String × Namespace)) :
    ∀ acc : ProvModel,
      (∀ kv ∈ nsl, kv.2.id = kv.1 ∧ nsDecompose kv.1 = some (kv.2.name, kv.2.uuid)) →
      ProvModel.applyJsonLd acc (nsl.map nsNode)
        = some { acc with namespaces := alInsertAll nsl acc.namespaces } := by
  induction nsl with
  | nil =>
    intro acc _
    simp [ProvModel.applyJsonLd, alInsertAll_nil]
  | cons kv rest ih =>
    intro acc hcond
    obtain ⟨hid, hdec⟩ := hcond kv (List.mem_cons_self _ _)
    rw [alInsertAll_cons]
    simp only [List.map_cons, ProvModel.applyJsonLd, List.foldlM_cons]
    have hnode : applyNode acc (nsNode kv) = some
        { acc with namespaces := alInsert acc.namespaces kv.1 kv.2 } := by
      simp only [applyNode, nsNode, nsTy_ne_ag, nsTy_ne_ac, nsTy_ne_en, eq_self_iff_true,
        if_true, if_false, Option.bind_eq_bind, Option.pure_def]
      simp only [applyNodeAsNamespace]
      rw [namespaceContext_of_decompose hdec, namespace_eta hid]
      simp
    rw [hnode]
    simp only [Option.bind_eq_bind, Option.some_bind]
    exact ih _ (fun p hp => hcond p (List.mem_cons_of_mem _ hp))

theorem label_ne_hasNs : (rdfsLabel = chronicleHasNamespace) = False := by
  simp +decide [rdfsLabel, chronicleHasNamespace]

theorem pk_ne_hasNs : (chronicleHasPublicKey = chronicleHasNamespace) = False := by
  simp +decide [chronicleHasPublicKey, chronicleHasNamespace]

theorem label_ne_pk : (rdfsLabel = chronicleHasPublicKey) = False := by
  simp +decide [rdfsLabel, chronicleHasPublicKey]

theorem hasNs_ne_pk : (chronicleHasNamespace = chronicleHasPublicKey) = False := by
  simp +decide [chronicleHasNamespace, chronicleHasPublicKey]

/-- An agent eta helper. -/
theorem agent_eta {k : String} {a : Agent} (h : a.id = k) :
    (⟨k, a.namespaceid, a.name, a.publickey⟩ : Agent) = a := by rw [← h]

theorem applyJsonLd_agentNodes (al : List (String × Agent)) :
    ∀ acc : ProvModel,
      (∀ kv ∈ al, kv.2.id = kv.1 ∧
        ∃ nsv : Namespace, alLookup acc.namespaces kv.2.namespaceid = some nsv ∧
          nsv.id = kv.2.namespaceid ∧
          nsDecompose kv.2.namespaceid = some (nsv.name, nsv.uuid)) →
      ProvModel.applyJsonLd acc (al.map agentNode)
        = some { acc with agents := alInsertAll al acc.agents } := by
  induction al with
  | nil =>
    intro acc _
    simp [ProvModel.applyJsonLd, alInsertAll_nil]
  | cons kv rest ih =>
    intro acc hcond
    obtain ⟨hid, nsv, hlk, hnsvid, hdec⟩ := hcond kv (List.mem_cons_self _ _)
    rw [alInsertAll_cons]
    simp only [List.map_cons, ProvModel.applyJsonLd, List.foldlM_cons]
    have hctx : ProvModel.namespaceContext acc kv.2.namespaceid = some acc := by
      rw [namespaceContext_of_decompose hdec, namespace_eta hnsvid,
        alInsert_eq_of_lookup hlk]
    have hnode : applyNode acc (agentNode kv) = some
        { acc with agents := alInsert acc.agents kv.1 kv.2 } := by
      simp only [applyNode, agentNode, agTy_ne_ns, eq_self_iff_true, if_true, if_false,
        Option.bind_eq_bind, Option.some_bind, Option.pure_def]
      cases hpk : kv.2.publickey with
      | none =>
        simp only [applyNodeAsAgent, hpk, optSeg, List.nil_append, List.cons_append,
          List.singleton_append, alLookup, label_ne_hasNs, label_ne_pk, hasNs_ne_pk,
          eq_self_iff_true, if_true, if_false, propStr, nodeRefIds, propIds,
          List.filterMap_cons, List.filterMap_nil, Option.bind_eq_bind, Option.some_bind,
          Option.none_bind, Option.bind_none, Option.bind_some, List.head?, Option.pure_def]
        rw [hctx]
        simp only [Option.some_bind, Option.some_inj]
        rw [show (⟨kv.1, kv.2.namespaceid, kv.2.name, none⟩ : Agent) = kv.2 from
          hpk ▸ agent_eta hid]
      | some pk =>
        simp only [applyNodeAsAgent, hpk, optSeg, List.nil_append, List.cons_append,
          List.singleton_append, alLookup, label_ne_hasNs, label_ne_pk, hasNs_ne_pk,
          pk_ne_hasNs, eq_self_iff_true, if_true, if_false, propStr, nodeRefIds, propIds,
          List.filterMap_cons, List.filterMap_nil, Option.bind_eq_bind, Option.some_bind,
          Option.none_bind, Option.bind_none, Option.bind_some, List.head?, Option.pure_def]
        rw [hctx]
        simp only [Option.some_bind, Option.some_inj]
        rw [show (⟨kv.1, kv.2.namespaceid, kv.2.name, some pk⟩ : Agent) = kv.2 from
          hpk ▸ agent_eta hid]
    rw [hnode]
    simp only [Option.bind_eq_bind, Option.some_bind]
    exact ih _ (fun p hp => hcond p (List.mem_cons_of_mem _ hp))

theorem alInsert_alInsert_general {β : Type} (l : List (String × β)) (k : String) (v w : β) :
    alInsert (alInsert l k v) k w = alInsert l k w := by
  induction l with
  | nil => simp [alInsert]
  | cons hd tl ih =>
    obtain ⟨k₀, v₀⟩ := hd
    by_cases h : k₀ = k
    · simp [alInsert, h]
    · simp [alInsert, h, ih]

theorem alLookup_append_singleton_self {β : Type} {l : List (String × β)} {k : String}
    (h : alLookup l k = none) (v : β) : alLookup (l ++ [(k, v)]) k = some v := by
  rw [alLookup_append_right h]
  simp [alLookup]

theorem alInsert_append_self {β : Type} {l : List (String × β)} {k : String}
    (h : alLookup l k = none) (v w : β) :
    alInsert (l ++ [(k, v)]) k w = l ++ [(k, w)] := by
  induction l with
  | nil => simp [alInsert]
  | cons hd tl ih =>
    obtain ⟨k₀, v₀⟩ := hd
    by_cases hk : k₀ = k
    · simp [alLookup, hk] at h
    · simp [alLookup, hk] at h
      simp [alInsert, hk, ih h]

theorem relInsert_foldl_some (s : List String) :
    ∀ (R : List (String × List String)) (k : String) (t : List String),
      alLookup R k = some t → (∀ x ∈ s, x ∉ t) → s.Nodup →
      s.foldl (fun r e => relInsert r k e) R = alInsert R k (t ++ s) := by
  induction s with
  | nil =>
    intro R k t hlk _ _
    rw [List.foldl_nil, List.append_nil, alInsert_eq_of_lookup hlk]
  | cons e rest ih =>
    intro R k t hlk hdisj hnd
    simp only [List.foldl_cons]
    have h₁ : relInsert R k e = alInsert R k (t ++ [e]) := by
      unfold relInsert
      rw [hlk]
      simp only [Option.getD_some]
      rw [setInsert, if_neg (hdisj e (List.mem_cons_self _ _))]
    rw [h₁]
    have h₂ : alLookup (alInsert R k (t ++ [e])) k = some (t ++ [e]) :=
      alLookup_alInsert_self _ _ _
    have h₃ : ∀ x ∈ rest, x ∉ t ++ [e] := by
      intro x hx
      simp only [List.mem_append, List.mem_singleton]
      rintro (hxt | hxe)
      · exact hdisj x (List.mem_cons_of_mem _ hx) hxt
      · subst hxe
        exact (List.nodup_cons.mp hnd).1 hx
    rw [ih _ _ _ h₂ h₃ (List.nodup_cons.mp hnd).2]
    rw [alInsert_alInsert_general, List.append_assoc]
    rfl

theorem relInsert_foldl_none {R : List (String × List String)} {k : String}
    (hlk : alLookup R k = none) {s : List String} (hnd : s.Nodup) (hne : s ≠ []) :
    s.foldl (fun r e => relInsert r k e) R = R ++ [(k, s)] := by
  cases s with
  | nil => exact absurd rfl hne
  | cons e rest =>
    simp only [List.foldl_cons]
    have h₁ : relInsert R k e = R ++ [(k, [e])] := by
      unfold relInsert
      rw [hlk]
      simp only [Option.getD_none]
      rw [setInsert, if_neg (List.not_mem_nil e)]
      exact alInsert_append_of_lookup_none hlk _
    rw [h₁]
    have h₂ : alLookup (R ++ [(k, [e])]) k = some [e] :=
      alLookup_append_singleton_self hlk _
    have h₃ : ∀ x ∈ rest, x ∉ [e] := by
      intro x hx
      simp only [List.mem_singleton]
      intro hxe
      subst hxe
      exact (List.nodup_cons.mp hnd).1 hx
    rw [relInsert_foldl_some rest _ _ _ h₂ h₃ (List.nodup_cons.mp hnd).2]
    rw [alInsert_append_self hlk]
    rfl

theorem alLookup_cons_ne {β : Type} {k₀ : String} {v₀ : β} {l : List (String × β)}
    {q : String} (hne : ¬ k₀ = q) : alLookup ((k₀, v₀) :: l) q = alLookup l q := by
  simp [alLookup, hne]

theorem alLookup_optSeg_skip {γ : Type} (o : Option γ) (kk : String) (f : γ → LdProp)
    {q : String} (hne : ¬ kk = q) (l₂ : List (String × LdProp)) :
    alLookup (optSeg o kk f ++ l₂) q = alLookup l₂ q := by
  cases o <;> simp [optSeg, alLookup, hne]

theorem alLookup_optSeg_self {γ : Type} (o : Option γ) (kk : String) (f : γ → LdProp)
    {l₂ : List (String × LdProp)} (h₂ : alLookup l₂ kk = none) :
    alLookup (optSeg o kk f ++ l₂) kk = o.map f := by
  cases o <;> simp [optSeg, alLookup, h₂]

theorem propTime_optRoundtrip (o : Option Int) :
    (o.map (fun t => LdProp.arr [LdValue.vtime t])).bind propTime = o := by
  cases o <;> rfl

/-- Append the relation entry of `k` (when the source model has one) to an
accumulating relation map; the shape produced by re-decoding one node. -/
def relAppendEntry (W : List (String × List String)) (k : String)
    (R : List (String × List String)) : List (String × List String) :=
  match alLookup W k with
  | some s => R ++ [(k, s)]
  | none => R

theorem relAppendEntry_none {W : List (String × List String)} {k : String}
    (h : alLookup W k = none) (R : List (String × List String)) :
    relAppendEntry W k R = R := by
  unfold relAppendEntry
  rw [h]

theorem relAppendEntry_some {W : List (String × List String)} {k : String}
    {s : List String} (h : alLookup W k = some s) (R : List (String × List String)) :
    relAppendEntry W k R = R ++ [(k, s)] := by
  unfold relAppendEntry
  rw [h]

/-- The model-state effect of decoding one activity node of `m`. -/
def activityStep (m acc : ProvModel) (kv : String × Activity) : ProvModel where
  namespaces := acc.namespaces
  agents := acc.agents
  activities := alInsert acc.activities kv.1
    ⟨kv.1, kv.2.namespaceid, kv.2.name, kv.2.started, kv.2.ended⟩
  entities := acc.entities
  wasAssociatedWith := relAppendEntry m.wasAssociatedWith kv.1 acc.wasAssociatedWith
  wasAttributedTo := acc.wasAttributedTo
  wasGeneratedBy := acc.wasGeneratedBy
  usedRel := relAppendEntry m.usedRel kv.1 acc.usedRel

theorem applyNode_activityNode (m acc : ProvModel) (kv : String × Activity)
    (nsv : Namespace) (hlk : alLookup acc.namespaces kv.2.namespaceid = some nsv)
    (hnsvid : nsv.id = kv.2.namespaceid)
    (hdec : nsDecompose kv.2.namespaceid = some (nsv.name, nsv.uuid))
    (hused : ∀ s, alLookup m.usedRel kv.1 = some s → s.Nodup ∧ s ≠ [])
    (hwawd : ∀ s, alLookup m.wasAssociatedWith kv.1 = some s → s.Nodup ∧ s ≠ [])
    (hu0 : alLookup acc.usedRel kv.1 = none)
    (hw0 : alLookup acc.wasAssociatedWith kv.1 = none) :
    applyNode acc (activityNode m kv) = some (activityStep m acc kv) := by
  have hprops : (activityNode m kv).props
      = (rdfsLabel, LdProp.arr [LdValue.vstr kv.2.name]) ::
        (optSeg kv.2.started provStartedAtTime (fun t => .arr [.vtime t]) ++
          (optSeg kv.2.ended provEndedAtTime (fun t => .arr [.vtime t]) ++
            (optSeg (alLookup m.wasAssociatedWith kv.1) provWasAssociatedWith
                (fun agents => .arr (agents.map LdValue.vid)) ++
              (optSeg (alLookup m.usedRel kv.1) provUsed
                  (fun entities => .arr (entities.map LdValue.vid)) ++
                [(chronicleHasNamespace, LdProp.arr [LdValue.vid kv.2.namespaceid])])))) := by
    simp [activityNode, List.append_assoc]
  have hlabel : alLookup (activityNode m kv).props rdfsLabel
      = some (LdProp.arr [LdValue.vstr kv.2.name]) := by
    rw [hprops]
    simp [alLookup]
  have hstart : alLookup (activityNode m kv).props provStartedAtTime
      = kv.2.started.map (fun t => LdProp.arr [LdValue.vtime t]) := by
    rw [hprops, alLookup_cons_ne (by decide), alLookup_optSeg_self]
    rw [alLookup_optSeg_skip _ _ _ (by decide), alLookup_optSeg_skip _ _ _ (by decide),
      alLookup_optSeg_skip _ _ _ (by decide), alLookup_cons_ne (by decide)]
    rfl
  have hended : alLookup (activityNode m kv).props provEndedAtTime
      = kv.2.ended.map (fun t => LdProp.arr [LdValue.vtime t]) := by
    rw [hprops, alLookup_cons_ne (by decide), alLookup_optSeg_skip _ _ _ (by decide),
      alLookup_optSeg_self]
    rw [alLookup_optSeg_skip _ _ _ (by decide), alLookup_optSeg_skip _ _ _ (by decide),
      alLookup_cons_ne (by decide)]
    rfl
  have hwawq : alLookup (activityNode m kv).props provWasAssociatedWith
      = (alLookup m.wasAssociatedWith kv.1).map
          (fun agents => LdProp.arr (agents.map LdValue.vid)) := by
    rw [hprops, alLookup_cons_ne (by decide), alLookup_optSeg_skip _ _ _ (by decide),
      alLookup_optSeg_skip _ _ _ (by decide), alLookup_optSeg_self]
    rw [alLookup_optSeg_skip _ _ _ (by decide), alLookup_cons_ne (by decide)]
    rfl
  have huseq : alLookup (activityNode m kv).props provUsed
      = (alLookup m.usedRel kv.1).map
          (fun entities => LdProp.arr (entities.map LdValue.vid)) := by
    rw [hprops, alLookup_cons_ne (by decide), alLookup_optSeg_skip _ _ _ (by decide),
      alLookup_optSeg_skip _ _ _ (by decide), alLookup_optSeg_skip _ _ _ (by decide),
      alLookup_optSeg_self]
    rw [alLookup_cons_ne (by decide)]
    rfl
  have hnsq : alLookup (activityNode m kv).props chronicleHasNamespace
      = some (LdProp.arr [LdValue.vid kv.2.namespaceid]) := by
    rw [hprops, alLookup_cons_ne (by decide), alLookup_optSeg_skip _ _ _ (by decide),
      alLookup_optSeg_skip _ _ _ (by decide), alLookup_optSeg_skip _ _ _ (by decide),
      alLookup_optSeg_skip _ _ _ (by decide)]
    simp [alLookup]
  have htyp : (activityNode m kv).typ = provActivityType := rfl
  have hid2 : (activityNode m kv).id = kv.1 := rfl
  have hctx : ProvModel.namespaceContext acc kv.2.namespaceid = some acc := by
    rw [namespaceContext_of_decompose hdec, namespace_eta hnsvid, alInsert_eq_of_lookup hlk]
  have hrefNs : nodeRefIds (activityNode m kv) chronicleHasNamespace
      = [kv.2.namespaceid] := by
    simp [nodeRefIds, hnsq, propIds]
  simp only [applyNode, htyp, acTy_ne_ns, acTy_ne_ag, eq_self_iff_true, if_true, if_false]
  cases hw : alLookup m.wasAssociatedWith kv.1 <;> cases hu : alLookup m.usedRel kv.1
  all_goals
    first
    | (next s t =>
        have hrefW : nodeRefIds (activityNode m kv) provWasAssociatedWith = s := by
          simp [nodeRefIds, hwawq, hw, propIds_map_vid]
        have hrefU : nodeRefIds (activityNode m kv) provUsed = t := by
          simp [nodeRefIds, huseq, hu, propIds_map_vid]
        simp only [applyNodeAsActivity, hid2, hlabel, hstart, hended, hrefNs, hrefW, hrefU,
          propStr, propTime_optRoundtrip, List.head?_cons, Option.bind_eq_bind,
          Option.some_bind, hctx, Option.pure_def, Option.some_inj]
        rw [relInsert_foldl_none hu0 (hused t hu).1 (hused t hu).2,
          relInsert_foldl_none hw0 (hwawd s hw).1 (hwawd s hw).2]
        simp only [activityStep, relAppendEntry_some hw, relAppendEntry_some hu])
    | (next s =>
        have hrefW : nodeRefIds (activityNode m kv) provWasAssociatedWith = ([] : List String) := by
          simp [nodeRefIds, hwawq, hw]
        have hrefU : nodeRefIds (activityNode m kv) provUsed = s := by
          simp [nodeRefIds, huseq, hu, propIds_map_vid]
        simp only [applyNodeAsActivity, hid2, hlabel, hstart, hended, hrefNs, hrefW, hrefU,
          propStr, propTime_optRoundtrip, List.head?_cons, Option.bind_eq_bind,
          Option.some_bind, hctx, Option.pure_def, Option.some_inj, List.foldl_nil]
        rw [relInsert_foldl_none hu0 (hused s hu).1 (hused s hu).2]
        simp only [activityStep, relAppendEntry_none hw, relAppendEntry_some hu])
    | (next s =>
        have hrefW : nodeRefIds (activityNode m kv) provWasAssociatedWith = s := by
          simp [nodeRefIds, hwawq, hw, propIds_map_vid]
        have hrefU : nodeRefIds (activityNode m kv) provUsed = ([] : List String) := by
          simp [nodeRefIds, huseq, hu]
        simp only [applyNodeAsActivity, hid2, hlabel, hstart, hended, hrefNs, hrefW, hrefU,
          propStr, propTime_optRoundtrip, List.head?_cons, Option.bind_eq_bind,
          Option.some_bind, hctx, Option.pure_def, Option.some_inj, List.foldl_nil]
        rw [relInsert_foldl_none hw0 (hwawd s hw).1 (hwawd s hw).2]
        simp only [activityStep, relAppendEntry_some hw, relAppendEntry_none hu])
    | (have hrefW : nodeRefIds (activityNode m kv) provWasAssociatedWith = ([] : List String) := by
          simp [nodeRefIds, hwawq, hw]
       have hrefU : nodeRefIds (activityNode m kv) provUsed = ([] : List String) := by
          simp [nodeRefIds, huseq, hu]
       simp only [applyNodeAsActivity, hid2, hlabel, hstart, hended, hrefNs, hrefW, hrefU,
          propStr, propTime_optRoundtrip, List.head?_cons, Option.bind_eq_bind,
          Option.some_bind, hctx, Option.pure_def, Option.some_inj, List.foldl_nil]
       simp only [activityStep, relAppendEntry_none hw, relAppendEntry_none hu])

theorem alLookup_append_singleton_ne {β : Type} {R : List (String × β)} {k q : String}
    (v : β) (h : alLookup R q = none) (hne : ¬ k = q) :
    alLookup (R ++ [(k, v)]) q = none := by
  induction R with
  | nil => simp [alLookup, hne]
  | cons hd tl ih =>
    by_cases hq : hd.1 = q
    · simp [alLookup, hq] at h
    · simp only [alLookup, hq, if_neg hq, List.cons_append] at h ⊢
      exact ih h

theorem activity_eta {k : String} {a : Activity} (h : a.id = k) :
    (⟨k, a.namespaceid, a.name, a.started, a.ended⟩ : Activity) = a := by
  rw [← h]

/-- The relation rows of `W` whose key occurs in `keys`, in key order; the
order in which a decode pass rebuilds a relation map. -/
def relProjection (W : List (String × List String)) (keys : List String) :
    List (String × List String) :=
  keys.filterMap (fun k => (alLookup W k).map (fun s => (k, s)))

theorem relProjection_cons_append (W : List (String × List String)) (k : String)
    (keys : List String) (R : List (String × List String)) :
    R ++ relProjection W (k :: keys) = relAppendEntry W k R ++ relProjection W keys := by
  cases h : alLookup W k with
  | none =>
    simp [relProjection, relAppendEntry_none h, List.filterMap_cons, h]
  | some s =>
    simp [relProjection, relAppendEntry_some h, List.filterMap_cons, h, List.append_assoc]

theorem applyJsonLd_activityNodes (m : ProvModel) (l : List (String × Activity)) :
    ∀ acc : ProvModel,
      (∀ kv ∈ l, kv.2.id = kv.1 ∧
        ∃ nsv : Namespace, alLookup acc.namespaces kv.2.namespaceid = some nsv ∧
          nsv.id = kv.2.namespaceid ∧
          nsDecompose kv.2.namespaceid = some (nsv.name, nsv.uuid)) →
      (∀ kv ∈ l, ∀ s, alLookup m.wasAssociatedWith kv.1 = some s → s.Nodup ∧ s ≠ []) →
      (∀ kv ∈ l, ∀ s, alLookup m.usedRel kv.1 = some s → s.Nodup ∧ s ≠ []) →
      (∀ kv ∈ l, alLookup acc.wasAssociatedWith kv.1 = none ∧
        alLookup acc.usedRel kv.1 = none) →
      (l.map Prod.fst).Nodup →
      ProvModel.applyJsonLd acc (l.map (activityNode m))
        = some { acc with
            activities := alInsertAll l acc.activities,
            wasAssociatedWith :=
              acc.wasAssociatedWith ++ relProjection m.wasAssociatedWith (l.map Prod.fst),
            usedRel := acc.usedRel ++ relProjection m.usedRel (l.map Prod.fst) } := by
  induction l with
  | nil =>
    intro acc _ _ _ _ _
    simp [ProvModel.applyJsonLd, alInsertAll_nil, relProjection]
  | cons kv rest ih =>
    intro acc hns hwawd hused hfresh hnd
    obtain ⟨hid, nsv, hlk, hnsvid, hdec⟩ := hns kv (List.mem_cons_self _ _)
    obtain ⟨hw0, hu0⟩ := hfresh kv (List.mem_cons_self _ _)
    have hnode := applyNode_activityNode m acc kv nsv hlk hnsvid hdec
      (fun s hs => (hused kv (List.mem_cons_self _ _) s hs).imp id id)
      (fun s hs => (hwawd kv (List.mem_cons_self _ _) s hs).imp id id)
      hu0 hw0
    simp only [List.map_cons, ProvModel.applyJsonLd, List.foldlM_cons] at ih ⊢
    rw [hnode]
    simp only [Option.bind_eq_bind, Option.some_bind]
    have hnd' : (kv.1 :: rest.map Prod.fst).Nodup := by
      simpa using hnd
    have hkne : ∀ kv' ∈ rest, ¬ kv.1 = kv'.1 := by
      intro kv' hkv' heq
      exact (List.nodup_cons.mp hnd').1 (heq ▸ List.mem_map_of_mem Prod.fst hkv')
    have hrest := ih (activityStep m acc kv)
      (fun p hp => hns p (List.mem_cons_of_mem _ hp))
      (fun p hp => hwawd p (List.mem_cons_of_mem _ hp))
      (fun p hp => hused p (List.mem_cons_of_mem _ hp))
      (fun p hp => by
        obtain ⟨hw', hu'⟩ := hfresh p (List.mem_cons_of_mem _ hp)
        refine ⟨?_, ?_⟩
        · show alLookup (relAppendEntry m.wasAssociatedWith kv.1 acc.wasAssociatedWith) p.1
            = none
          cases h : alLookup m.wasAssociatedWith kv.1 with
          | none => rw [relAppendEntry_none h]; exact hw'
          | some s =>
            rw [relAppendEntry_some h]
            exact alLookup_append_singleton_ne s hw' (hkne p hp)
        · show alLookup (relAppendEntry m.usedRel kv.1 acc.usedRel) p.1 = none
          cases h : alLookup m.usedRel kv.1 with
          | none => rw [relAppendEntry_none h]; exact hu'
          | some s =>
            rw [relAppendEntry_some h]
            exact alLookup_append_singleton_ne s hu' (hkne p hp))
      (List.nodup_cons.mp hnd').2
    rw [hrest]
    simp only [Option.some_inj]
    have hact : (activityStep m acc kv).activities
        = alInsert acc.activities kv.1 kv.2 := by
      show alInsert acc.activities kv.1
          ⟨kv.1, kv.2.namespaceid, kv.2.name, kv.2.started, kv.2.ended⟩
        = alInsert acc.activities kv.1 kv.2
      rw [activity_eta hid]
    simp only [activityStep, hact, List.map_cons]
    rw [alInsertAll_cons, ← relProjection_cons_append, ← relProjection_cons_append,
      activity_eta hid]

theorem propStr_optRoundtrip (o : Option String) :
    (o.map (fun l => LdProp.one (LdValue.vstr l))).bind propStr = o := by
  cases o <;> rfl

/-- The model-state effect of decoding one entity node of `m`. -/
def entityStep (m acc : ProvModel) (kv : String × Entity) : ProvModel where
  namespaces := acc.namespaces
  agents := acc.agents
  activities := acc.activities
  entities := alInsert acc.entities kv.1 kv.2
  wasAssociatedWith := acc.wasAssociatedWith
  wasAttributedTo := acc.wasAttributedTo
  wasGeneratedBy := relAppendEntry m.wasGeneratedBy kv.1 acc.wasGeneratedBy
  usedRel := acc.usedRel

theorem applyNode_entityNode (m acc : ProvModel) (kv : String × Entity)
    (hid : kv.2.id = kv.1) (nsv : Namespace)
    (hlk : alLookup acc.namespaces kv.2.namespaceid = some nsv)
    (hnsvid : nsv.id = kv.2.namespaceid)
    (hdec : nsDecompose kv.2.namespaceid = some (nsv.name, nsv.uuid))
    (hwgb : ∀ s, alLookup m.wasGeneratedBy kv.1 = some s → s.Nodup ∧ s ≠ [])
    (hg0 : alLookup acc.wasGeneratedBy kv.1 = none) :
    applyNode acc (entityNode m kv) = some (entityStep m acc kv) := by
  obtain ⟨k, e⟩ := kv
  cases e with
  | unsigned i n nm =>
    simp only [Entity.id, Entity.namespaceid] at hid hlk hnsvid hdec hwgb hg0
    subst hid
    have hctx : ProvModel.namespaceContext acc n = some acc := by
      rw [namespaceContext_of_decompose hdec, namespace_eta hnsvid, alInsert_eq_of_lookup hlk]
    have hprops : (entityNode m (i, Entity.unsigned i n nm)).props
        = (rdfsLabel, LdProp.arr [LdValue.vstr nm]) ::
          (optSeg (alLookup m.wasGeneratedBy i) provWasGeneratedBy
              (fun activities => .arr (activities.map LdValue.vid)) ++
            [(chronicleHasNamespace, LdProp.arr [LdValue.vid n])]) := by
      simp [entityNode, Entity.name, Entity.namespaceid, List.append_assoc]
    have hlabel : alLookup (entityNode m (i, Entity.unsigned i n nm)).props rdfsLabel
        = some (LdProp.arr [LdValue.vstr nm]) := by
      rw [hprops]
      simp [alLookup]
    have hsig : alLookup (entityNode m (i, Entity.unsigned i n nm)).props chronicleSignature
        = none := by
      rw [hprops, alLookup_cons_ne (by decide), alLookup_optSeg_skip _ _ _ (by decide),
        alLookup_cons_ne (by decide)]
      rfl
    have hrefNs : nodeRefIds (entityNode m (i, Entity.unsigned i n nm)) chronicleHasNamespace
        = [n] := by
      simp only [nodeRefIds, hprops]
      rw [alLookup_cons_ne (by decide), alLookup_optSeg_skip _ _ _ (by decide)]
      simp [alLookup, propIds]
    have hwgbq : alLookup (entityNode m (i, Entity.unsigned i n nm)).props provWasGeneratedBy
        = (alLookup m.wasGeneratedBy i).map
            (fun activities => LdProp.arr (activities.map LdValue.vid)) := by
      rw [hprops, alLookup_cons_ne (by decide), alLookup_optSeg_self]
      rw [alLookup_cons_ne (by decide)]
      rfl
    have htyp : (entityNode m (i, Entity.unsigned i n nm)).typ = provEntityType := rfl
    have hid2 : (entityNode m (i, Entity.unsigned i n nm)).id = i := rfl
    simp only [applyNode, htyp, enTy_ne_ns, enTy_ne_ag, enTy_ne_ac, eq_self_iff_true,
      if_true, if_false]
    cases hg : alLookup m.wasGeneratedBy i with
    | none =>
      have hrefG : nodeRefIds (entityNode m (i, Entity.unsigned i n nm)) provWasGeneratedBy
          = ([] : List String) := by
        simp [nodeRefIds, hwgbq, hg]
      simp only [applyNodeAsEntity, hid2, hlabel, hsig, hrefNs, hrefG, propStr,
        List.head?_cons, Option.bind_eq_bind, Option.some_bind, hctx, Option.pure_def,
        Option.some_inj, List.foldl_nil]
      simp only [entityStep, relAppendEntry_none hg, Entity.namespaceid]
    | some s =>
      have hrefG : nodeRefIds (entityNode m (i, Entity.unsigned i n nm)) provWasGeneratedBy
          = s := by
        simp [nodeRefIds, hwgbq, hg, propIds_map_vid]
      simp only [applyNodeAsEntity, hid2, hlabel, hsig, hrefNs, hrefG, propStr,
        List.head?_cons, Option.bind_eq_bind, Option.some_bind, hctx, Option.pure_def,
        Option.some_inj]
      rw [relInsert_foldl_none hg0 (hwgb s hg).1 (hwgb s hg).2]
      simp only [entityStep, relAppendEntry_some hg, Entity.namespaceid]
  | signed i n nm sig loc t =>
    simp only [Entity.id, Entity.namespaceid] at hid hlk hnsvid hdec hwgb hg0
    subst hid
    have hctx : ProvModel.namespaceContext acc n = some acc := by
      rw [namespaceContext_of_decompose hdec, namespace_eta hnsvid, alInsert_eq_of_lookup hlk]
    have hprops : (entityNode m (i, Entity.signed i n nm sig loc t)).props
        = (rdfsLabel, LdProp.arr [LdValue.vstr nm]) ::
          (optSeg (alLookup m.wasGeneratedBy i) provWasGeneratedBy
              (fun activities => .arr (activities.map LdValue.vid)) ++
            ((chronicleSignature, LdProp.one (LdValue.vstr sig)) ::
              ((chronicleSignedAtTime, LdProp.one (LdValue.vtime t)) ::
                (optSeg loc chronicleLocator (fun l => .one (.vstr l)) ++
                  [(chronicleHasNamespace, LdProp.arr [LdValue.vid n])])))) := by
      simp [entityNode, Entity.name, Entity.namespaceid, List.append_assoc]
    have hlabel : alLookup (entityNode m (i, Entity.signed i n nm sig loc t)).props rdfsLabel
        = some (LdProp.arr [LdValue.vstr nm]) := by
      rw [hprops]
      simp [alLookup]
    have hsig : alLookup (entityNode m (i, Entity.signed i n nm sig loc t)).props
        chronicleSignature = some (LdProp.one (LdValue.vstr sig)) := by
      rw [hprops, alLookup_cons_ne (by decide), alLookup_optSeg_skip _ _ _ (by decide)]
      simp [alLookup]
    have hsigT : alLookup (entityNode m (i, Entity.signed i n nm sig loc t)).props
        chronicleSignedAtTime = some (LdProp.one (LdValue.vtime t)) := by
      rw [hprops, alLookup_cons_ne (by decide), alLookup_optSeg_skip _ _ _ (by decide),
        alLookup_cons_ne (by decide)]
      simp [alLookup]
    have hloc : alLookup (entityNode m (i, Entity.signed i n nm sig loc t)).props
        chronicleLocator = loc.map (fun l => LdProp.one (LdValue.vstr l)) := by
      rw [hprops, alLookup_cons_ne (by decide), alLookup_optSeg_skip _ _ _ (by decide),
        alLookup_cons_ne (by decide), alLookup_cons_ne (by decide), alLookup_optSeg_self]
      rw [alLookup_cons_ne (by decide)]
      rfl
    have hrefNs : nodeRefIds (entityNode m (i, Entity.signed i n nm sig loc t))
        chronicleHasNamespace = [n] := by
      simp only [nodeRefIds, hprops]
      rw [alLookup_cons_ne (by decide), alLookup_optSeg_skip _ _ _ (by decide),
        alLookup_cons_ne (by decide), alLookup_cons_ne (by decide),
        alLookup_optSeg_skip _ _ _ (by decide)]
      simp [alLookup, propIds]
    have hwgbq : alLookup (entityNode m (i, Entity.signed i n nm sig loc t)).props
        provWasGeneratedBy
        = (alLookup m.wasGeneratedBy i).map
            (fun activities => LdProp.arr (activities.map LdValue.vid)) := by
      rw [hprops, alLookup_cons_ne (by decide), alLookup_optSeg_self]
      rw [alLookup_cons_ne (by decide), alLookup_cons_ne (by decide),
        alLookup_optSeg_skip _ _ _ (by decide), alLookup_cons_ne (by decide)]
      rfl
    have htyp : (entityNode m (i, Entity.signed i n nm sig loc t)).typ = provEntityType := rfl
    have hid2 : (entityNode m (i, Entity.signed i n nm sig loc t)).id = i := rfl
    simp only [applyNode, htyp, enTy_ne_ns, enTy_ne_ag, enTy_ne_ac, eq_self_iff_true,
      if_true, if_false]
    cases hg : alLookup m.wasGeneratedBy i with
    | none =>
      have hrefG : nodeRefIds (entityNode m (i, Entity.signed i n nm sig loc t))
          provWasGeneratedBy = ([] : List String) := by
        simp [nodeRefIds, hwgbq, hg]
      simp only [applyNodeAsEntity, hid2, hlabel, hsig, hsigT, hloc, hrefNs, hrefG, propStr,
        propTime, propStr_optRoundtrip, List.head?_cons, Option.bind_eq_bind,
        Option.some_bind, hctx, Option.pure_def, Option.some_inj, List.foldl_nil]
      simp only [entityStep, relAppendEntry_none hg, Entity.namespaceid]
      cases loc <;> rfl
    | some s =>
      have hrefG : nodeRefIds (entityNode m (i, Entity.signed i n nm sig loc t))
          provWasGeneratedBy = s := by
        simp [nodeRefIds, hwgbq, hg, propIds_map_vid]
      simp only [applyNodeAsEntity, hid2, hlabel, hsig, hsigT, hloc, hrefNs, hrefG, propStr,
        propTime, propStr_optRoundtrip, List.head?_cons, Option.bind_eq_bind,
        Option.some_bind, hctx, Option.pure_def, Option.some_inj]
      rw [relInsert_foldl_none hg0 (hwgb s hg).1 (hwgb s hg).2]
      simp only [entityStep, relAppendEntry_some hg, Entity.namespaceid]
      cases loc <;> rfl

theorem applyJsonLd_entityNodes (m : ProvModel) (l : List (String × Entity)) :
    ∀ acc : ProvModel,
      (∀ kv ∈ l, kv.2.id = kv.1 ∧
        ∃ nsv : Namespace, alLookup acc.namespaces kv.2.namespaceid = some nsv ∧
          nsv.id = kv.2.namespaceid ∧
          nsDecompose kv.2.namespaceid = some (nsv.name, nsv.uuid)) →
      (∀ kv ∈ l, ∀ s, alLookup m.wasGeneratedBy kv.1 = some s → s.Nodup ∧ s ≠ []) →
      (∀ kv ∈ l, alLookup acc.wasGeneratedBy kv.1 = none) →
      (l.map Prod.fst).Nodup →
      ProvModel.applyJsonLd acc (l.map (entityNode m))
        = some { acc with
            entities := alInsertAll l acc.entities,
            wasGeneratedBy :=
              acc.wasGeneratedBy ++ relProjection m.wasGeneratedBy (l.map Prod.fst) } := by
  induction l with
  | nil =>
    intro acc _ _ _ _
    simp [ProvModel.applyJsonLd, alInsertAll_nil, relProjection]
  | cons kv rest ih =>
    intro acc hns hwgbd hfresh hnd
    obtain ⟨hid, nsv, hlk, hnsvid, hdec⟩ := hns kv (List.mem_cons_self _ _)
    have hg0 := hfresh kv (List.mem_cons_self _ _)
    have hnode := applyNode_entityNode m acc kv hid nsv hlk hnsvid hdec
      (fun s hs => hwgbd kv (List.mem_cons_self _ _) s hs) hg0
    simp only [List.map_cons, ProvModel.applyJsonLd, List.foldlM_cons] at ih ⊢
    rw [hnode]
    simp only [Option.bind_eq_bind, Option.some_bind]
    have hnd' : (kv.1 :: rest.map Prod.fst).Nodup := by
      simpa using hnd
    have hkne : ∀ kv' ∈ rest, ¬ kv.1 = kv'.1 := by
      intro kv' hkv' heq
      exact (List.nodup_cons.mp hnd').1 (heq ▸ List.mem_map_of_mem Prod.fst hkv')
    have hrest := ih (entityStep m acc kv)
      (fun p hp => hns p (List.mem_cons_of_mem _ hp))
      (fun p hp => hwgbd p (List.mem_cons_of_mem _ hp))
      (fun p hp => by
        have hg' := hfresh p (List.mem_cons_of_mem _ hp)
        show alLookup (relAppendEntry m.wasGeneratedBy kv.1 acc.wasGeneratedBy) p.1 = none
        cases h : alLookup m.wasGeneratedBy kv.1 with
        | none => rw [relAppendEntry_none h]; exact hg'
        | some s =>
          rw [relAppendEntry_some h]
          exact alLookup_append_singleton_ne s hg' (hkne p hp))
      (List.nodup_cons.mp hnd').2
    rw [hrest]
    simp only [Option.some_inj, entityStep, List.map_cons]
    rw [alInsertAll_cons, ← relProjection_cons_append]

theorem alInsertAll_of_fresh {β : Type} (l : List (String × β)) :
    ∀ c : List (String × β), (∀ kv ∈ l, alLookup c kv.1 = none) →
      (l.map Prod.fst).Nodup → alInsertAll l c = c ++ l := by
  induction l with
  | nil =>
    intro c _ _
    simp [alInsertAll_nil]
  | cons kv rest ih =>
    intro c hfresh hnd
    have hnd' : (kv.1 :: rest.map Prod.fst).Nodup := by simpa using hnd
    rw [alInsertAll_cons,
      alInsert_append_of_lookup_none (hfresh kv (List.mem_cons_self _ _)) kv.2]
    rw [ih (c ++ [kv]) ?_ (List.nodup_cons.mp hnd').2]
    · simp
    · intro p hp
      refine alLookup_append_singleton_ne kv.2 (hfresh p (List.mem_cons_of_mem _ hp)) ?_
      intro heq
      exact (List.nodup_cons.mp hnd').1 (heq ▸ List.mem_map_of_mem Prod.fst hp)

theorem relProjection_lookup_not_mem (W : List (String × List String))
    (keys : List String) (q : String) (hq : q ∉ keys) :
    alLookup (relProjection W keys) q = none := by
  induction keys with
  | nil => rfl
  | cons k rest ih =>
    have hqk : ¬ k = q := fun h => hq (h ▸ List.mem_cons_self _ _)
    have hq' : q ∉ rest := fun h => hq (List.mem_cons_of_mem _ h)
    cases h : alLookup W k with
    | none =>
      simp only [relProjection, List.filterMap_cons, h, Option.map_none'] at ih ⊢
      exact ih hq'
    | some s =>
      simp only [relProjection, List.filterMap_cons, h, Option.map_some'] at ih ⊢
      rw [alLookup_cons_ne hqk]
      exact ih hq'

theorem alLookup_relProjection (W : List (String × List String)) (keys : List String)
    (q : String) (hnd : keys.Nodup)
    (hcov : ∀ s, alLookup W q = some s → q ∈ keys) :
    alLookup (relProjection W keys) q = alLookup W q := by
  induction keys with
  | nil =>
    cases h : alLookup W q with
    | none => rfl
    | some s => exact absurd (hcov s h) (List.not_mem_nil q)
  | cons k rest ih =>
    by_cases hqk : q = k
    · subst hqk
      cases h : alLookup W q with
      | none =>
        simp only [relProjection, List.filterMap_cons, h, Option.map_none']
        exact relProjection_lookup_not_mem W rest q (List.nodup_cons.mp hnd).1
      | some s =>
        simp only [relProjection, List.filterMap_cons, h, Option.map_some', alLookup,
          if_pos rfl, if_true]
    · cases h : alLookup W k with
      | none =>
        simp only [relProjection, List.filterMap_cons, h, Option.map_none'] at ih ⊢
        refine ih (List.nodup_cons.mp hnd).2 (fun s hs => ?_)
        cases hcov s hs with
        | head => exact absurd rfl hqk
        | tail _ hm => exact hm
      | some s =>
        simp only [relProjection, List.filterMap_cons, h, Option.map_some'] at ih ⊢
        rw [alLookup_cons_ne (fun hh => hqk hh.symm)]
        refine ih (List.nodup_cons.mp hnd).2 (fun s' hs' => ?_)
        cases hcov s' hs' with
        | head => exact absurd rfl hqk
        | tail _ hm => exact hm

theorem alContains_mem_keys {β : Type} {l : List (String × β)} {k : String}
    (h : alContains l k = true) : k ∈ l.map Prod.fst := by
  obtain ⟨v, hv⟩ := alLookup_of_contains h
  exact List.mem_map_of_mem Prod.fst (alLookup_some_mem hv)

theorem toJson_decode (m : ProvModel) (hInv : ModelInv m) :
    ProvModel.applyJsonLd {} m.toJson
      = some ⟨m.namespaces, m.agents, m.activities, m.entities,
          relProjection m.wasAssociatedWith (m.activities.map Prod.fst), [],
          relProjection m.wasGeneratedBy (m.entities.map Prod.fst),
          relProjection m.usedRel (m.activities.map Prod.fst)⟩ := by
  have hnsfull := alInsertAll_of_fresh m.namespaces [] (fun kv _ => rfl) hInv.nsKeys
  have hagfull := alInsertAll_of_fresh m.agents [] (fun kv _ => rfl) hInv.agKeys
  have hacfull := alInsertAll_of_fresh m.activities [] (fun kv _ => rfl) hInv.acKeys
  have henfull := alInsertAll_of_fresh m.entities [] (fun kv _ => rfl) hInv.enKeys
  rw [List.nil_append] at hnsfull hagfull hacfull henfull
  have hnsv : ∀ nsid, alContains m.namespaces nsid = true →
      ∃ nsv : Namespace, alLookup m.namespaces nsid = some nsv ∧
        nsv.id = nsid ∧ nsDecompose nsid = some (nsv.name, nsv.uuid) := by
    intro nsid hc
    obtain ⟨nsv, hv⟩ := alLookup_of_contains hc
    obtain ⟨hvid, hvdec⟩ := hInv.nsVal nsid nsv (alLookup_some_mem hv)
    exact ⟨nsv, hv, hvid, hvdec⟩
  rw [ProvModel.toJson, applyJsonLd_append, applyJsonLd_append, applyJsonLd_append]
  rw [applyJsonLd_nsNodes m.namespaces {} (fun kv hkv => hInv.nsVal kv.1 kv.2 hkv)]
  simp only [Option.bind_eq_bind, Option.some_bind, hnsfull]
  rw [applyJsonLd_agentNodes m.agents ⟨m.namespaces, [], [], [], [], [], [], []⟩
    (fun kv hkv =>
    ⟨(hInv.agVal kv.1 kv.2 hkv).1, hnsv kv.2.namespaceid (hInv.agVal kv.1 kv.2 hkv).2⟩)]
  simp only [Option.bind_eq_bind, Option.some_bind, hagfull]
  rw [applyJsonLd_activityNodes m m.activities
    ⟨m.namespaces, m.agents, [], [], [], [], [], []⟩
    (fun kv hkv =>
      ⟨(hInv.acVal kv.1 kv.2 hkv).1, hnsv kv.2.namespaceid (hInv.acVal kv.1 kv.2 hkv).2⟩)
    (fun kv _ s hs =>
      ⟨(hInv.wawVal kv.1 s (alLookup_some_mem hs)).2.2,
        (hInv.wawVal kv.1 s (alLookup_some_mem hs)).2.1⟩)
    (fun kv _ s hs =>
      ⟨(hInv.usedVal kv.1 s (alLookup_some_mem hs)).2.2,
        (hInv.usedVal kv.1 s (alLookup_some_mem hs)).2.1⟩)
    (fun kv _ => ⟨rfl, rfl⟩) hInv.acKeys]
  simp only [Option.bind_eq_bind, Option.some_bind, hacfull, List.nil_append]
  rw [applyJsonLd_entityNodes m m.entities
    ⟨m.namespaces, m.agents, m.activities, [],
      relProjection m.wasAssociatedWith (m.activities.map Prod.fst), [], [],
      relProjection m.usedRel (m.activities.map Prod.fst)⟩
    (fun kv hkv =>
      ⟨(hInv.enVal kv.1 kv.2 hkv).1, hnsv kv.2.namespaceid (hInv.enVal kv.1 kv.2 hkv).2⟩)
    (fun kv _ s hs =>
      ⟨(hInv.wgbVal kv.1 s (alLookup_some_mem hs)).2.2,
        (hInv.wgbVal kv.1 s (alLookup_some_mem hs)).2.1⟩)
    (fun kv _ => rfl) hInv.enKeys]
  simp only [Option.some_inj, henfull, List.nil_append]

theorem decoded_equiv (m : ProvModel) (hInv : ModelInv m) :
    ProvModel.Equiv
      ⟨m.namespaces, m.agents, m.activities, m.entities,
        relProjection m.wasAssociatedWith (m.activities.map Prod.fst), [],
        relProjection m.wasGeneratedBy (m.entities.map Prod.fst),
        relProjection m.usedRel (m.activities.map Prod.fst)⟩ m := by
  refine ⟨fun k => rfl, fun k => rfl, fun k => rfl, fun k => rfl, ?_, ?_, ?_, ?_⟩
  · intro k
    exact alLookup_relProjection _ _ _ hInv.acKeys (fun s hs =>
      alContains_mem_keys (hInv.wawVal k s (alLookup_some_mem hs)).1)
  · intro k
    rw [hInv.attEmpty]
  · intro k
    exact alLookup_relProjection _ _ _ hInv.enKeys (fun s hs =>
      alContains_mem_keys (hInv.wgbVal k s (alLookup_some_mem hs)).1)
  · intro k
    exact alLookup_relProjection _ _ _ hInv.acKeys (fun s hs =>
      alContains_mem_keys (hInv.usedVal k s (alLookup_some_mem hs)).1)

theorem modelInv_foldTx (ops : List ChronicleTransaction) :
    ∀ m₀ m : ProvModel, ModelInv m₀ → (∀ tx ∈ ops, WfCreateNs tx) →
      ops.foldlM ProvModel.apply m₀ = some m → ModelInv m := by
  induction ops with
  | nil =>
    intro m₀ m h₀ _ h
    simp only [List.foldlM_nil, Option.pure_def, Option.some_inj] at h
    exact h ▸ h₀
  | cons tx rest ih =>
    intro m₀ m h₀ hwf h
    simp only [List.foldlM_cons, Option.bind_eq_bind] at h
    cases h1 : ProvModel.apply m₀ tx with
    | none => rw [h1] at h; simp at h
    | some m₁ =>
      rw [h1] at h
      simp only [Option.some_bind] at h
      exact ih m₁ m (modelInv_apply h₀ (hwf tx (List.mem_cons_self _ _)) h1)
        (fun t ht => hwf t (List.mem_cons_of_mem _ ht)) h

/-- A uuid disagreeing with the one embedded in `cNs`. -/
def cBadUuid : String := "00000000-0000-0000-0000-000000000000"

/-- C2 counterexample: a model reachable by one `CreateNamespace` operation
whose `uuid` field disagrees with the uuid embedded in the namespace
identifier does not round-trip: serialising emits only the identifier, and
decoding rebuilds the namespace from the identifier's own uuid, so the
decoded namespace map differs from the original at the namespace key. -/
theorem roundtrip_counterexample :
    ∃ m md : ProvModel,
      ProvModel.fromTx [.createNamespace cNs "testns" cBadUuid] = some m ∧
      ProvModel.applyJsonLd {} m.toJson = some md ∧
      ¬ alLookup md.namespaces cNs = alLookup m.namespaces cNs := by
  refine ⟨⟨[(cNs, ⟨cNs, cBadUuid, "testns"⟩)], [], [], [], [], [], [], []⟩,
    ⟨[(cNs, ⟨cNs, cUuid, "testns"⟩)], [], [], [], [], [], [], []⟩, ?_, ?_, ?_⟩ <;> decide

/-- C2: for every model reachable by applying a sequence of operations to
the empty model, provided each `CreateNamespace` operation's name and uuid
agree with the ones embedded in its namespace identifier, decoding the
linked-data serialisation of the model succeeds and yields a model with the
same content in every resource and relation map (HashMap equality of the
source; the rebuilt relation maps may list keys in a different order). -/
theorem roundtrip_fromTx (ops : List ChronicleTransaction) (m : ProvModel)
    (hwf : ∀ tx ∈ ops, WfCreateNs tx) (h : ProvModel.fromTx ops = some m) :
    ∃ md, ProvModel.applyJsonLd {} m.toJson = some md ∧ ProvModel.Equiv md m := by
  have hInv := modelInv_foldTx ops {} m modelInv_empty hwf h
  exact ⟨_, toJson_decode m hInv, decoded_equiv m hInv⟩

theorem roundtrip_fromTx_witness :
    ∃ md, ProvModel.applyJsonLd {}
        (ProvModel.toJson ⟨[(cNs, ⟨cNs, cUuid, "testns"⟩)], [], [], [], [], [], [], []⟩)
        = some md ∧
      ProvModel.Equiv md ⟨[(cNs, ⟨cNs, cUuid, "testns"⟩)], [], [], [], [], [], [], []⟩ :=
  roundtrip_fromTx [.createNamespace cNs "testns" cUuid]
    ⟨[(cNs, ⟨cNs, cUuid, "testns"⟩)], [], [], [], [], [], [], []⟩
    (fun tx htx => by
      rw [List.mem_singleton] at htx
      subst htx
      show nsDecompose cNs = some ("testns", cUuid)
      decide)
    (by decide)
